import Mathlib

/-!
# Verification of the OOC schedule generator core (src/app.js)

Shallow embedding of the scheduling engine of the college-football
out-of-conference (OOC) schedule generator: week slots, team records,
the derived per-team scheduling state (`computeTeamState`), the pairing
feasibility predicate (`canScheduleBetween`), home/away assignment
(`pickHomeAway`), game placement (`placeGameAtWeek`), the week-by-week
greedy matcher (`tryGenerateSchedule`) and the bye distribution pass
(`assignByes`).

JavaScript reference semantics are made explicit: the mutable array of
`TeamState` objects becomes a `List TeamState` threaded through the
loops, and object references become indices into that list.  JavaScript
`Array.prototype.sort` (stable, spec-mandated) is modelled by a stable
insertion sort with the comparator's "compares ≤ 0" relation.
-/

/-- Tagged week-slot variant, exactly the `type` tags used in app.js. -/
inductive WeekSlot where
  | confHome : WeekSlot
  | confAway : WeekSlot
  | bye : WeekSlot
  | empty : WeekSlot
  | lockedOOC (opponent : String) (away : Bool) : WeekSlot
  | oocGame (opponent : String) (away : Bool) : WeekSlot
deriving DecidableEq

/-- A team record as produced by the parser: name, conference, stated OOC
need, and the ordered list of week slots. -/
structure Team where
  name : String
  conference : String
  oocNeeded : Int
  weeks : List WeekSlot
deriving DecidableEq

/-- Derived scheduling state for one team (`computeTeamState` in app.js).
The JavaScript `ref` back-pointer to the mutable team record is the
`ref` field; writes through `ref` are modelled by updating it here. -/
structure TeamState where
  ref : Team
  name : String
  key : String
  conference : String
  totalGames : Nat
  homeGames : Nat
  awayGames : Nat
  playedOpp : List String
  availableWeeks : List Nat
  oocRemaining : Nat
deriving DecidableEq

/-- True on slot types that count as a scheduled game
(`confHome`, `confAway`, `lockedOOC`, `oocGame`). -/
def isGame : WeekSlot → Bool
  | .confHome => true
  | .confAway => true
  | .lockedOOC _ _ => true
  | .oocGame _ _ => true
  | .bye => false
  | .empty => false

/-- True exactly on `oocGame` slots (games created by the scheduler). -/
def isOoc : WeekSlot → Bool
  | .oocGame _ _ => true
  | _ => false

/-- True on the slot types the matcher treats as open
(the `empty || bye` branch of the `computeTeamState` scan). -/
def isOpen : WeekSlot → Bool
  | .empty => true
  | .bye => true
  | _ => false

/-- Number of scheduled games among a list of week slots. -/
def countGames (ws : List WeekSlot) : Nat := ws.countP isGame

/-- Number of scheduler-created `oocGame` slots among a list of week slots. -/
def countOoc (ws : List WeekSlot) : Nat := ws.countP isOoc

/-- Number of `bye` slots among a list of week slots. -/
def countByes (ws : List WeekSlot) : Nat := ws.countP (fun s => s = WeekSlot.bye)

/-- Accumulator of the single scan over a team's weeks in `computeTeamState`. -/
structure ScanAcc where
  totalGames : Nat
  homeGames : Nat
  awayGames : Nat
  lockedCnt : Nat
  playedOpp : List String
  availableWeeks : List Nat
deriving DecidableEq

/-- JS `s.trim().toLowerCase()` on team-name strings, written as a
character-list traversal (drop whitespace at both ends, lower-case each
character) so that it evaluates on concrete inputs. -/
def normKey (s : String) : String :=
  ⟨((s.data.dropWhile Char.isWhitespace).reverse.dropWhile
      Char.isWhitespace).reverse.map Char.toLower⟩

/-- Lexicographic code-unit comparison of character lists (the order JS
`<` uses on strings). -/
def charsLt : List Char → List Char → Bool
  | [], [] => false
  | [], _ :: _ => true
  | _ :: _, [] => false
  | c :: cs, d :: ds =>
    if c.val.toNat < d.val.toNat then true
    else if d.val.toNat < c.val.toNat then false
    else charsLt cs ds

/-- Non-strict lexicographic code-unit comparison (the `localeCompare`
result being ≤ 0 on the ASCII keys this program compares). -/
def charsLe : List Char → List Char → Bool
  | [], _ => true
  | _ :: _, [] => false
  | c :: cs, d :: ds =>
    if c.val.toNat < d.val.toNat then true
    else if d.val.toNat < c.val.toNat then false
    else charsLe cs ds

/-- JS string `<` on the normalized keys. -/
def strLt (a b : String) : Bool := charsLt a.data b.data

/-- JS `a.localeCompare(b) ≤ 0` on the normalized keys. -/
def strLe (a b : String) : Bool := charsLe a.data b.data

/-- Model of `playedOpp.add(opponent.trim().toLowerCase())` guarded by the JS
truthiness check `if (w.opponent)`; `Set.add` does not duplicate. -/
def addPlayed (s : List String) (o : String) : List String :=
  if o = "" then s
  else if s.contains (normKey o) then s else s ++ [normKey o]

/-- One iteration of the `computeTeamState` scan at week index `i`. -/
def scanStep (acc : ScanAcc) (i : Nat) (w : WeekSlot) : ScanAcc :=
  match w with
  | .confHome =>
      { acc with totalGames := acc.totalGames + 1, homeGames := acc.homeGames + 1 }
  | .confAway =>
      { acc with totalGames := acc.totalGames + 1, awayGames := acc.awayGames + 1 }
  | .lockedOOC o aw =>
      { acc with
        totalGames := acc.totalGames + 1
        lockedCnt := acc.lockedCnt + 1
        homeGames := if aw then acc.homeGames else acc.homeGames + 1
        awayGames := if aw then acc.awayGames + 1 else acc.awayGames
        playedOpp := addPlayed acc.playedOpp o }
  | .oocGame o aw =>
      { acc with
        totalGames := acc.totalGames + 1
        homeGames := if aw then acc.homeGames else acc.homeGames + 1
        awayGames := if aw then acc.awayGames + 1 else acc.awayGames
        playedOpp := addPlayed acc.playedOpp o }
  | .empty => { acc with availableWeeks := acc.availableWeeks ++ [i] }
  | .bye => { acc with availableWeeks := acc.availableWeeks ++ [i] }

/-- The scan over the weeks list, carrying the running week index. -/
def buildAcc : List WeekSlot → Nat → ScanAcc → ScanAcc
  | [], _, acc => acc
  | w :: rest, i, acc => buildAcc rest (i + 1) (scanStep acc i w)

/-- The `computeTeamState` builder of app.js for a single team: one scan over the
14 week slots, then `oocRemaining = max(0, oocNeeded - lockedOOC)`. -/
def computeTeamState (t : Team) : TeamState :=
  let acc := buildAcc t.weeks 0 ⟨0, 0, 0, 0, [], []⟩
  { ref := t
    name := t.name
    key := normKey t.name
    conference := t.conference
    totalGames := acc.totalGames
    homeGames := acc.homeGames
    awayGames := acc.awayGames
    playedOpp := acc.playedOpp
    availableWeeks := acc.availableWeeks
    oocRemaining := (t.oocNeeded - acc.lockedCnt).toNat }

/-- Placeholder team used as the out-of-range default for list indexing. -/
def dummyTeam : Team := { name := "", conference := "", oocNeeded := 0, weeks := [] }

/-- Placeholder state used as the out-of-range default for list indexing. -/
def dummyState : TeamState := computeTeamState dummyTeam

/-- Read the state of the team at index `i` (JS object reference made
explicit as an index into the state array). -/
def stGet (st : List TeamState) (i : Nat) : TeamState := st.getD i dummyState

/-- Predicate `canScheduleBetween(a, b)` of app.js, with the early-return chain
written as nested conditionals (the JS null check on the arguments is
unrepresentable and vacuous here). -/
def canScheduleBetween (a b : TeamState) : Bool :=
  if a.key = b.key then false
  else if a.conference = b.conference then false
  else if a.oocRemaining ≤ 0 ∨ b.oocRemaining ≤ 0 then false
  else if 12 ≤ a.totalGames ∨ 12 ≤ b.totalGames then false
  else if a.playedOpp.contains b.key ∨ b.playedOpp.contains a.key then false
  else true

/-- Result of `pickHomeAway`: the `{home, away}` object of app.js. -/
structure HomeAway where
  home : TeamState
  away : TeamState
deriving DecidableEq

/-- Assignment `pickHomeAway(a, b)` of app.js: fewer home games is home; tie broken
by more away games; final deterministic fallback on the JS `<` order of
the normalized keys. -/
def pickHomeAway (a b : TeamState) : HomeAway :=
  if a.homeGames ≠ b.homeGames then
    if a.homeGames < b.homeGames then ⟨a, b⟩ else ⟨b, a⟩
  else if a.awayGames ≠ b.awayGames then
    if a.awayGames > b.awayGames then ⟨a, b⟩ else ⟨b, a⟩
  else if strLt a.key b.key then ⟨a, b⟩ else ⟨b, a⟩

/-- Decision of `pickHomeAway` as a Boolean: whether the first argument
is designated home.  Resolves the JS reference aliasing of
`pickHomeAway`'s result onto the indices used by `placeGameAtWeek`;
`pickHomeAway_eq` below ties the two together. -/
def aIsHome (a b : TeamState) : Bool :=
  if a.homeGames ≠ b.homeGames then a.homeGames < b.homeGames
  else if a.awayGames ≠ b.awayGames then a.awayGames > b.awayGames
  else strLt a.key b.key

/-- The updates `placeGameAtWeek` performs on one participant: write the
`oocGame` slot through `ref`, bump the counters, record the opponent,
and drop the week from `availableWeeks`. -/
def placeSide (s : TeamState) (oppKey oppName : String) (week : Nat) (home : Bool) :
    TeamState :=
  { s with
    ref := { s.ref with weeks := s.ref.weeks.set week (.oocGame oppName (!home)) }
    totalGames := s.totalGames + 1
    homeGames := if home then s.homeGames + 1 else s.homeGames
    awayGames := if home then s.awayGames else s.awayGames + 1
    oocRemaining := s.oocRemaining - 1
    playedOpp := if s.playedOpp.contains oppKey then s.playedOpp
                 else s.playedOpp ++ [oppKey]
    availableWeeks := s.availableWeeks.filter (fun x => x ≠ week) }

/-- Placement `placeGameAtWeek(a, b, week)` of app.js on the state array, with the
participants given by their indices `ia`, `ib`. -/
def placeGameAtWeek (st : List TeamState) (ia ib : Nat) (week : Nat) :
    List TeamState :=
  let a := stGet st ia
  let b := stGet st ib
  let ah := aIsHome a b
  (st.set ia (placeSide a b.key b.name week ah)).set ib
    (placeSide b a.key a.name week (!ah))

/-- Stable insertion of `x` into `l`, placing `x` before the first
element `y` with `le x y`. -/
def insertLe (le : α → α → Bool) (x : α) : List α → List α
  | [] => [x]
  | y :: ys => if le x y then x :: y :: ys else y :: insertLe le x ys

/-- Stable sort (the unique result of JavaScript's stable
`Array.prototype.sort` with a consistent comparator), with `le x y`
standing for "the comparator on `(x, y)` returns ≤ 0". -/
def sortJS (le : α → α → Bool) : List α → List α
  | [] => []
  | x :: xs => insertLe le x (sortJS le xs)

/-- Relation of the eligibility sort comparator being ≤ 0, for
`(a.availableWeeks.length - b.availableWeeks.length) || (b.oocRemaining - a.oocRemaining)`. -/
def eligLe (st : List TeamState) (x y : Nat) : Bool :=
  let a := stGet st x
  let b := stGet st y
  decide (a.availableWeeks.length < b.availableWeeks.length) ||
    (decide (a.availableWeeks.length = b.availableWeeks.length) &&
      decide (b.oocRemaining ≤ a.oocRemaining))

/-- Relation of the candidate sort comparator being ≤ 0, which appends the
tie-break `a.key.localeCompare(b.key)` to the eligibility comparator. -/
def candLe (st : List TeamState) (x y : Nat) : Bool :=
  let a := stGet st x
  let b := stGet st y
  decide (a.availableWeeks.length < b.availableWeeks.length) ||
    (decide (a.availableWeeks.length = b.availableWeeks.length) &&
      (decide (b.oocRemaining < a.oocRemaining) ||
        (decide (a.oocRemaining = b.oocRemaining) && strLe a.key b.key)))

/-- The week's eligible set: indices of teams with remaining OOC need, the
week still open, and fewer than 12 total games. -/
def eligibleIdx (st : List TeamState) (w : Nat) : List Nat :=
  (List.range st.length).filter (fun i =>
    let t := stGet st i
    decide (0 < t.oocRemaining) && t.availableWeeks.contains w &&
      decide (t.totalGames < 12))

/-- The candidate-opponent filter for team index `t` in week `w`: another
eligible, unconsumed team, the week still open for it, and
`canScheduleBetween` true on the current states. -/
def candFilter (st : List TeamState) (used : List String) (w t : Nat) (o : Nat) :
    Bool :=
  (o != t) && !(used.contains (stGet st o).key) &&
    (stGet st o).availableWeeks.contains w &&
    canScheduleBetween (stGet st t) (stGet st o)

/-- The inner loop of the matcher over the sorted eligible list for one
week: skip consumed teams, pick the best candidate, place the game, and
mark both sides consumed. -/
def goWeek (w : Nat) (elig : List Nat) :
    List Nat → List TeamState → List String → List TeamState
  | [], st, _ => st
  | t :: rest, st, used =>
    if used.contains (stGet st t).key then goWeek w elig rest st used
    else
      let cands := sortJS (candLe st) (elig.filter (candFilter st used w t))
      match cands with
      | [] => goWeek w elig rest st used
      | opp :: _ =>
          goWeek w elig rest (placeGameAtWeek st t opp w)
            (used ++ [(stGet st t).key, (stGet st opp).key])

/-- One iteration of the matcher's outer `for (const w of weekOrder)`
loop: recompute and sort the eligible set, then pair teams off. -/
def weekPass (w : Nat) (st : List TeamState) : List TeamState :=
  let elig := sortJS (eligLe st) (eligibleIdx st w)
  goWeek w elig elig st []

/-- The week order of `tryGenerateSchedule`: `0..13`, with week 0 moved
to the end when `avoidWeek0` is set. -/
def weekOrder (avoidWeek0 : Bool) : List Nat :=
  if avoidWeek0 then (List.range 14).drop 1 ++ [0] else List.range 14

/-- The initial state array (`computeTeamState` over the cloned teams;
cloning is the identity under value semantics). -/
def genStates (l : List Team) : List TeamState := l.map computeTeamState

/-- The demand sum `state.reduce((s, t) => s + t.oocRemaining, 0)`. -/
def sumRemaining (st : List TeamState) : Nat := (st.map (·.oocRemaining)).sum

/-- The state array after the full matcher pass over the week order. -/
def finalState (l : List Team) (avoidWeek0 : Bool) : List TeamState :=
  (weekOrder avoidWeek0).foldl (fun st w => weekPass w st) (genStates l)

/-- The result object of `tryGenerateSchedule`.  JS object fields absent
on one branch are `Option` fields set to `none` there. -/
structure GenResult where
  ok : Bool
  reason : Option String
  teams : Option (List Team)
  unscheduled : Option Nat
  scheduledOOC : Option Int
  neededOOC : Option Nat
deriving DecidableEq

/-- The fixed failure reason string of `tryGenerateSchedule`. -/
def noPairReason : String := "No valid OOC pairings available under constraints"

/-- Entry point `tryGenerateSchedule(baseTeams, avoidWeek0)` of app.js: run the
matcher over the chosen week order and package the progress summary;
fail only when demand existed and no progress was made. -/
def tryGenerateSchedule (baseTeams : List Team) (avoidWeek0 : Bool) : GenResult :=
  let beforeRemaining := sumRemaining (genStates baseTeams)
  let afterRemaining := sumRemaining (finalState baseTeams avoidWeek0)
  let scheduled : Int := (beforeRemaining : Int) - (afterRemaining : Int)
  if 0 < beforeRemaining ∧ scheduled = 0 then
    { ok := false
      reason := some noPairReason
      teams := none
      unscheduled := none
      scheduledOOC := none
      neededOOC := none }
  else
    { ok := true
      reason := none
      teams := some ((finalState baseTeams avoidWeek0).map (·.ref))
      unscheduled := some afterRemaining
      scheduledOOC := some scheduled
      neededOOC := some beforeRemaining }

/-- The per-team view built at the start of `assignByes`: existing bye
indices, non-week-0 empty indices, and week-0 empty indices. -/
structure ByeView where
  t : Team
  byes : List Nat
  emptiesNon0 : List Nat
  empties0 : List Nat
deriving DecidableEq

/-- Build the `assignByes` view of a team (the JS loop pushes each index
in increasing order, i.e. filters the index range). -/
def mkByeView (t : Team) : ByeView :=
  { t := t
    byes := (List.range t.weeks.length).filter
      (fun i => decide (t.weeks.get? i = some WeekSlot.bye))
    emptiesNon0 := (List.range t.weeks.length).filter
      (fun i => decide (i ≠ 0 ∧ t.weeks.get? i = some WeekSlot.empty))
    empties0 := (List.range t.weeks.length).filter
      (fun i => decide (i = 0 ∧ t.weeks.get? i = some WeekSlot.empty)) }

/-- Convert the slot at `i` to a bye and record it (`v.t.weeks[idx] =
{type:'bye'}; v.byes.push(idx)`). -/
def applyBye (v : ByeView) (i : Nat) : ByeView :=
  { v with
    t := { v.t with weeks := v.t.weeks.set i .bye }
    byes := v.byes ++ [i] }

/-- Pop the first non-week-0 empty slot and convert it to a bye. -/
def byePopNon0 (v : ByeView) : ByeView :=
  match v.emptiesNon0 with
  | [] => v
  | i :: rest => applyBye { v with emptiesNon0 := rest } i

/-- Pop the first week-0 empty slot and convert it to a bye. -/
def byePop0 (v : ByeView) : ByeView :=
  match v.empties0 with
  | [] => v
  | i :: rest => applyBye { v with empties0 := rest } i

/-- One round of `assignByes` for one team: skip when the bye count has
reached the round number or the hard cap of 3, else convert one empty
slot, preferring non-week-0 (note: the `avoidWeek0` branch and the
unconditional branch of the source pick the same slot). -/
def byeStep (avoidWeek0 : Bool) (r : Nat) (v : ByeView) : ByeView :=
  if r ≤ v.byes.length ∨ 3 ≤ v.byes.length then v
  else if avoidWeek0 ∧ v.emptiesNon0 ≠ [] then byePopNon0 v
  else if v.emptiesNon0 ≠ [] then byePopNon0 v
  else if v.empties0 ≠ [] then byePop0 v
  else v

/-- Pass `assignByes(list, avoidWeek0)` of app.js: build the views, run three
rounds, and return the (mutated) team records. -/
def assignByes (list : List Team) (avoidWeek0 : Bool) : List Team :=
  let views := list.map mkByeView
  let views := [1, 2, 3].foldl (fun vs r => vs.map (byeStep avoidWeek0 r)) views
  views.map (·.t)

/-- The full processing of one team by `assignByes` (round fusion of the
three rounds; see `assignByes_eq_map`). -/
def byeProcess (avoidWeek0 : Bool) (t : Team) : Team :=
  (byeStep avoidWeek0 3 (byeStep avoidWeek0 2 (byeStep avoidWeek0 1 (mkByeView t)))).t

/-- The generation pipeline as driven by `onGenerate`: on success the
result teams are post-processed by `assignByes`; on failure the caller's
team list is left untouched. -/
def generate (l : List Team) (avoidWeek0 : Bool) : List Team :=
  match (tryGenerateSchedule l avoidWeek0).teams with
  | some ts => assignByes ts avoidWeek0
  | none => l

/-- Ghost-instrumented inner loop: identical control flow to `goWeek`,
additionally counting the `placeGameAtWeek` calls. -/
def goWeekC (w : Nat) (elig : List Nat) :
    List Nat → List TeamState → List String → Nat → List TeamState × Nat
  | [], st, _, c => (st, c)
  | t :: rest, st, used, c =>
    if used.contains (stGet st t).key then goWeekC w elig rest st used c
    else
      let cands := sortJS (candLe st) (elig.filter (candFilter st used w t))
      match cands with
      | [] => goWeekC w elig rest st used c
      | opp :: _ =>
          goWeekC w elig rest (placeGameAtWeek st t opp w)
            (used ++ [(stGet st t).key, (stGet st opp).key]) (c + 1)

/-- Ghost-instrumented week pass. -/
def weekPassC (w : Nat) (p : List TeamState × Nat) : List TeamState × Nat :=
  let elig := sortJS (eligLe p.1) (eligibleIdx p.1 w)
  goWeekC w elig elig p.1 [] p.2

/-- Ghost-instrumented full matcher pass. -/
def finalStateC (l : List Team) (avoidWeek0 : Bool) : List TeamState × Nat :=
  (weekOrder avoidWeek0).foldl (fun p w => weekPassC w p) (genStates l, 0)

/-- Number of games the matcher pass places (one per `placeGameAtWeek`
call), read off the ghost counter. -/
def gamesPlaced (l : List Team) (avoidWeek0 : Bool) : Nat :=
  (finalStateC l avoidWeek0).2

/-- Total `oocGame` slot count over a state array. -/
def countOocAll (st : List TeamState) : Nat :=
  (st.map (fun s => countOoc s.ref.weeks)).sum

/-- Slots of one team that are `oocGame` in the output but were not in
the input (positional count over the zipped week lists). -/
def countNewW (ws1 ws2 : List WeekSlot) : Nat :=
  (ws1.zip ws2).countP (fun p => isOoc p.2 && !isOoc p.1)

/-- Newly created `oocGame` slots across a run, input teams against
output teams, matched positionally. -/
def countNewOoc (tin tout : List Team) : Nat :=
  ((tin.zip tout).map (fun p => countNewW p.1.weeks p.2.weeks)).sum

/-- How a week slot may evolve across the whole pipeline: unchanged, or
`empty` became a scheduled `oocGame` or a `bye`, or a pre-existing `bye`
became a scheduled `oocGame`. -/
def slotTrans (a b : WeekSlot) : Prop :=
  b = a ∨ (a = .empty ∧ (isOoc b = true ∨ b = .bye)) ∨ (a = .bye ∧ isOoc b = true)

/-- How a week slot may evolve during the matcher pass alone. -/
def slotRel (a b : WeekSlot) : Prop :=
  b = a ∨ (isOpen a = true ∧ isOoc b = true)

/-- How a week slot may evolve during the bye pass alone. -/
def relB (a b : WeekSlot) : Prop :=
  b = a ∨ (a = .empty ∧ b = .bye)

instance : DecidablePred (fun p : WeekSlot × WeekSlot => slotTrans p.1 p.2) := by
  intro p; unfold slotTrans; infer_instance

instance (a b : WeekSlot) : Decidable (slotTrans a b) := by
  unfold slotTrans; infer_instance

instance (a b : WeekSlot) : Decidable (slotRel a b) := by
  unfold slotRel; infer_instance

instance (a b : WeekSlot) : Decidable (relB a b) := by
  unfold relB; infer_instance

/-! ## Basic indexing, sorting and counting lemmas -/

theorem stGet_cons_zero (x : TeamState) (xs : List TeamState) : stGet (x :: xs) 0 = x := rfl

theorem stGet_cons_succ (x : TeamState) (xs : List TeamState) (i : Nat) :
    stGet (x :: xs) (i + 1) = stGet xs i := rfl

theorem stGet_set_self {st : List TeamState} {i : Nat} (v : TeamState)
    (h : i < st.length) : stGet (st.set i v) i = v := by
  simp [stGet, List.getD, List.get?_eq_getElem?, List.getElem?_set_eq_of_lt, h]

theorem stGet_set_ne {st : List TeamState} {i j : Nat} (v : TeamState)
    (h : i ≠ j) : stGet (st.set i v) j = stGet st j := by
  simp [stGet, List.getD, List.get?_eq_getElem?, List.getElem?_set_ne h]

theorem mem_insertLe (le : α → α → Bool) (x a : α) (l : List α) :
    a ∈ insertLe le x l ↔ a = x ∨ a ∈ l := by
  induction l with
  | nil => simp [insertLe]
  | cons y ys ih =>
    simp only [insertLe]
    split
    · simp [List.mem_cons]
    · simp only [List.mem_cons, ih]
      tauto

theorem mem_sortJS (le : α → α → Bool) (a : α) (l : List α) :
    a ∈ sortJS le l ↔ a ∈ l := by
  induction l with
  | nil => simp [sortJS]
  | cons x xs ih => simp [sortJS, mem_insertLe, ih]

theorem countP_set_true (p : α → Bool) :
    ∀ (l : List α) (i : Nat) (s s' : α),
      l.get? i = some s → p s = false → p s' = true →
      (l.set i s').countP p = l.countP p + 1 := by
  intro l
  induction l with
  | nil => intro i s s' h _ _; simp at h
  | cons x xs ih =>
    intro i s s' hget hps hps'
    cases i with
    | zero =>
      simp only [List.get?] at hget
      injection hget with hx
      subst hx
      simp [List.countP_cons, hps, hps']
    | succ n =>
      have := ih n s s' (by simpa using hget) hps hps'
      simp only [List.set, List.countP_cons]
      omega

theorem sum_map_set (f : TeamState → Nat) :
    ∀ (l : List TeamState) (i : Nat) (v : TeamState), i < l.length →
      ((l.set i v).map f).sum + f (stGet l i) = (l.map f).sum + f v := by
  intro l
  induction l with
  | nil => intro i v h; simp at h
  | cons x xs ih =>
    intro i v h
    cases i with
    | zero => simp [stGet_cons_zero]; omega
    | succ n =>
      have := ih n v (by simpa using h)
      simp only [List.set, List.map_cons, List.sum_cons, stGet_cons_succ]
      omega

theorem forall₂_of_get? {R : α → β → Prop} :
    ∀ (l₁ : List α) (l₂ : List β), l₁.length = l₂.length →
      (∀ i a b, l₁.get? i = some a → l₂.get? i = some b → R a b) →
      List.Forall₂ R l₁ l₂ := by
  intro l₁
  induction l₁ with
  | nil =>
    intro l₂ h _
    cases l₂ with
    | nil => exact .nil
    | cons y ys => simp at h
  | cons x xs ih =>
    intro l₂ h hR
    cases l₂ with
    | nil => simp at h
    | cons y ys =>
      refine .cons (hR 0 x y rfl rfl) (ih ys (by simpa using h) ?_)
      intro i a b ha hb
      exact hR (i + 1) a b (by simpa using ha) (by simpa using hb)

theorem isOpen_not_isOoc {a : WeekSlot} (h : isOpen a = true) : isOoc a = false := by
  cases a <;> simp [isOpen, isOoc] at *

theorem isOpen_not_isGame {a : WeekSlot} (h : isOpen a = true) : isGame a = false := by
  cases a <;> simp [isOpen, isGame] at *

theorem slotRel_isGame {a b : WeekSlot} (h : slotRel a b) (hg : isGame a = true) :
    isGame b = true := by
  rcases h with rfl | ⟨ho, hb⟩
  · exact hg
  · rw [isOpen_not_isGame ho] at hg; cases hg

theorem countOoc_eq_add_countNewW :
    ∀ (ws1 ws2 : List WeekSlot), ws1.length = ws2.length →
      (∀ i a b, ws1.get? i = some a → ws2.get? i = some b → slotRel a b) →
      countOoc ws2 = countOoc ws1 + countNewW ws1 ws2 := by
  intro ws1
  induction ws1 with
  | nil =>
    intro ws2 h _
    cases ws2 with
    | nil => rfl
    | cons y ys => simp at h
  | cons a as ih =>
    intro ws2 h hrel
    cases ws2 with
    | nil => simp at h
    | cons b bs =>
      have h0 : slotRel a b := hrel 0 a b rfl rfl
      have ihr := ih bs (by simpa using h)
        (fun i x y hx hy => hrel (i + 1) x y (by simpa using hx) (by simpa using hy))
      unfold countOoc countNewW at ihr ⊢
      simp only [List.zip_cons_cons, List.countP_cons]
      rcases h0 with rfl | ⟨hopen, hooc⟩
      · cases hb : isOoc b <;> simp [hb] <;> omega
      · have ha : isOoc a = false := isOpen_not_isOoc hopen
        simp [ha, hooc]
        omega

theorem countP_mono_get? (p : α → Bool) :
    ∀ (l₁ l₂ : List α), l₁.length = l₂.length →
      (∀ i a b, l₁.get? i = some a → l₂.get? i = some b → p a = true → p b = true) →
      l₁.countP p ≤ l₂.countP p := by
  intro l₁
  induction l₁ with
  | nil => intro l₂ _ _; simp
  | cons a as ih =>
    intro l₂ h hrel
    cases l₂ with
    | nil => simp at h
    | cons b bs =>
      have h0 := hrel 0 a b rfl rfl
      have ihr := ih bs (by simpa using h)
        (fun i x y hx hy => hrel (i + 1) x y (by simpa using hx) (by simpa using hy))
      simp only [List.countP_cons]
      cases ha : p a with
      | false =>
        simp only [ha, Bool.false_eq_true, if_false, Nat.add_zero]
        exact le_trans ihr (Nat.le_add_right _ _)
      | true =>
        simp only [ha, h0 ha, if_true]
        omega

/-! ## Characterization of `computeTeamState` -/

theorem buildAcc_totalGames :
    ∀ (ws : List WeekSlot) (i : Nat) (acc : ScanAcc),
      (buildAcc ws i acc).totalGames = acc.totalGames + countGames ws := by
  intro ws
  induction ws with
  | nil => intro i acc; simp [buildAcc, countGames]
  | cons w rest ih =>
    intro i acc
    show (buildAcc rest (i + 1) (scanStep acc i w)).totalGames = _
    rw [ih]
    unfold countGames
    cases w <;> simp [scanStep, List.countP_cons, isGame] <;> omega

theorem buildAcc_avail :
    ∀ (ws : List WeekSlot) (i : Nat) (acc : ScanAcc) (j : Nat),
      j ∈ (buildAcc ws i acc).availableWeeks →
      j ∈ acc.availableWeeks ∨
        (i ≤ j ∧ ∃ s, ws.get? (j - i) = some s ∧ isOpen s = true) := by
  intro ws
  induction ws with
  | nil => intro i acc j h; exact Or.inl (by simpa [buildAcc] using h)
  | cons w rest ih =>
    intro i acc j h
    have h' : j ∈ (buildAcc rest (i + 1) (scanStep acc i w)).availableWeeks := h
    rcases ih _ _ _ h' with hacc | ⟨hij, s, hs, hopen⟩
    · cases w with
      | empty =>
        have hmem : j ∈ acc.availableWeeks ∨ j ∈ [i] := by
          have h2 : j ∈ acc.availableWeeks ++ [i] := by simpa [scanStep] using hacc
          simpa [List.mem_append] using h2
        rcases hmem with h1 | h1
        · exact Or.inl h1
        · have hj : j = i := by simpa using h1
          subst hj
          exact Or.inr ⟨Nat.le_refl _, .empty, by simp, rfl⟩
      | bye =>
        have hmem : j ∈ acc.availableWeeks ∨ j ∈ [i] := by
          have h2 : j ∈ acc.availableWeeks ++ [i] := by simpa [scanStep] using hacc
          simpa [List.mem_append] using h2
        rcases hmem with h1 | h1
        · exact Or.inl h1
        · have hj : j = i := by simpa using h1
          subst hj
          exact Or.inr ⟨Nat.le_refl _, .bye, by simp, rfl⟩
      | confHome => exact Or.inl (by simpa [scanStep] using hacc)
      | confAway => exact Or.inl (by simpa [scanStep] using hacc)
      | lockedOOC o aw => exact Or.inl (by simpa [scanStep] using hacc)
      | oocGame o aw => exact Or.inl (by simpa [scanStep] using hacc)
    · right
      refine ⟨by omega, s, ?_, hopen⟩
      have : j - i = (j - (i + 1)) + 1 := by omega
      rw [this]
      simpa using hs

theorem get?_set_self' {l : List α} {i : Nat} (v : α) (h : i < l.length) :
    (l.set i v).get? i = some v := by
  simp [List.get?_eq_getElem?, List.getElem?_set_eq_of_lt, h]

theorem get?_set_ne' {l : List α} {i j : Nat} (v : α) (h : i ≠ j) :
    (l.set i v).get? j = l.get? j := by
  simp [List.get?_eq_getElem?, List.getElem?_set_ne h]

theorem lt_of_get?_eq_some {l : List α} {n : Nat} {a : α} (h : l.get? n = some a) :
    n < l.length := by
  by_contra hn
  rw [List.get?_eq_getElem?, List.getElem?_eq_none (by omega)] at h
  cases h

theorem computeTeamState_total (t : Team) :
    (computeTeamState t).totalGames = countGames t.weeks := by
  simpa [computeTeamState] using buildAcc_totalGames t.weeks 0 ⟨0, 0, 0, 0, [], []⟩

theorem computeTeamState_avail (t : Team) (j : Nat)
    (h : j ∈ (computeTeamState t).availableWeeks) :
    ∃ s, t.weeks.get? j = some s ∧ isOpen s = true := by
  have h' := buildAcc_avail t.weeks 0 ⟨0, 0, 0, 0, [], []⟩ j
    (by simpa [computeTeamState] using h)
  rcases h' with h' | ⟨_, s, hs, ho⟩
  · simp at h'
  · exact ⟨s, by simpa using hs, ho⟩

/-! ## `pickHomeAway`, `canScheduleBetween` and placement lemmas -/

theorem pickHomeAway_eq (a b : TeamState) :
    pickHomeAway a b = if aIsHome a b then ⟨a, b⟩ else ⟨b, a⟩ := by
  unfold pickHomeAway aIsHome
  by_cases h1 : a.homeGames ≠ b.homeGames
  · by_cases h2 : a.homeGames < b.homeGames <;> simp [h1, h2]
  · by_cases h2 : a.awayGames ≠ b.awayGames
    · by_cases h3 : a.awayGames > b.awayGames <;> simp [h1, h2, h3]
    · by_cases h3 : strLt a.key b.key = true <;> simp [h1, h2, h3]

theorem canScheduleBetween_spec {a b : TeamState}
    (h : canScheduleBetween a b = true) :
    a.key ≠ b.key ∧ a.conference ≠ b.conference ∧
      0 < a.oocRemaining ∧ 0 < b.oocRemaining ∧
      a.totalGames < 12 ∧ b.totalGames < 12 := by
  unfold canScheduleBetween at h
  split_ifs at h with h1 h2 h3 h4 h5
  push_neg at h3 h4
  exact ⟨h1, h2, by omega, by omega, by omega, by omega⟩

theorem placeSide_name (s : TeamState) (k n : String) (w : Nat) (h : Bool) :
    (placeSide s k n w h).name = s.name := rfl

theorem placeSide_key (s : TeamState) (k n : String) (w : Nat) (h : Bool) :
    (placeSide s k n w h).key = s.key := rfl

theorem placeSide_refName (s : TeamState) (k n : String) (w : Nat) (h : Bool) :
    (placeSide s k n w h).ref.name = s.ref.name := rfl

theorem placeSide_refConf (s : TeamState) (k n : String) (w : Nat) (h : Bool) :
    (placeSide s k n w h).ref.conference = s.ref.conference := rfl

theorem placeSide_refOocN (s : TeamState) (k n : String) (w : Nat) (h : Bool) :
    (placeSide s k n w h).ref.oocNeeded = s.ref.oocNeeded := rfl

theorem placeSide_total (s : TeamState) (k n : String) (w : Nat) (h : Bool) :
    (placeSide s k n w h).totalGames = s.totalGames + 1 := rfl

theorem placeSide_ooc (s : TeamState) (k n : String) (w : Nat) (h : Bool) :
    (placeSide s k n w h).oocRemaining = s.oocRemaining - 1 := rfl

theorem placeSide_avail (s : TeamState) (k n : String) (w : Nat) (h : Bool) :
    (placeSide s k n w h).availableWeeks =
      s.availableWeeks.filter (fun x => x ≠ w) := rfl

theorem placeSide_wks (s : TeamState) (k n : String) (w : Nat) (h : Bool) :
    (placeSide s k n w h).ref.weeks = s.ref.weeks.set w (.oocGame n (!h)) := rfl

theorem place_length (st : List TeamState) (ia ib w : Nat) :
    (placeGameAtWeek st ia ib w).length = st.length := by
  simp [placeGameAtWeek]

theorem stGet_place_other {st : List TeamState} {ia ib w i : Nat}
    (ha : i ≠ ia) (hb : i ≠ ib) :
    stGet (placeGameAtWeek st ia ib w) i = stGet st i := by
  unfold placeGameAtWeek
  rw [stGet_set_ne _ (Ne.symm hb), stGet_set_ne _ (Ne.symm ha)]

theorem stGet_place_fst {st : List TeamState} {ia ib w : Nat}
    (hne : ia ≠ ib) (ha : ia < st.length) :
    stGet (placeGameAtWeek st ia ib w) ia =
      placeSide (stGet st ia) (stGet st ib).key (stGet st ib).name w
        (aIsHome (stGet st ia) (stGet st ib)) := by
  unfold placeGameAtWeek
  rw [stGet_set_ne _ (Ne.symm hne)]
  exact stGet_set_self _ ha

theorem stGet_place_snd {st : List TeamState} {ia ib w : Nat}
    (hb : ib < st.length) :
    stGet (placeGameAtWeek st ia ib w) ib =
      placeSide (stGet st ib) (stGet st ia).key (stGet st ia).name w
        (!(aIsHome (stGet st ia) (stGet st ib))) := by
  unfold placeGameAtWeek
  exact stGet_set_self _ (by simpa using hb)

/-! ## The matcher invariant -/

/-- Weeks list of the team record behind state index `i`. -/
def wksOf (st : List TeamState) (i : Nat) : List WeekSlot := (stGet st i).ref.weeks

/-- Invariant carried by the matcher from the initial state array `init`
(the output of `computeTeamState`) to any intermediate state `st`:
identities are stable, `availableWeeks` points at open slots, slots only
evolve along `slotRel`, the `totalGames` counter counts the game slots
and respects the cap, the summed OOC demand plus the `oocGame` slot
count is conserved, and every scheduler-created `oocGame` slot has its
mirror slot at the opponent. -/
structure SchedInv (init st : List TeamState) : Prop where
  len : st.length = init.length
  nameRef : ∀ i, (stGet st i).name = (stGet st i).ref.name
  nameEq : ∀ i, (stGet st i).ref.name = (stGet init i).ref.name
  confEq : ∀ i, (stGet st i).ref.conference = (stGet init i).ref.conference
  oocNEq : ∀ i, (stGet st i).ref.oocNeeded = (stGet init i).ref.oocNeeded
  avail : ∀ i w, w ∈ (stGet st i).availableWeeks →
    ∃ s, (wksOf st i).get? w = some s ∧ isOpen s = true
  pres : ∀ i w a b, (wksOf init i).get? w = some a →
    (wksOf st i).get? w = some b → slotRel a b
  wlen : ∀ i, (wksOf st i).length = (wksOf init i).length
  total : ∀ i, (stGet st i).totalGames = countGames (wksOf st i)
  totalLe : ∀ i, (stGet st i).totalGames ≤ max 12 (stGet init i).totalGames
  sumEq : sumRemaining st + countOocAll st = sumRemaining init + countOocAll init
  symm : ∀ i w op aw, i < st.length →
    (wksOf st i).get? w = some (.oocGame op aw) →
    (wksOf init i).get? w = some (.oocGame op aw) ∨
    ∃ j, j < st.length ∧ j ≠ i ∧ (stGet st j).ref.name = op ∧
      (wksOf st j).get? w = some (.oocGame (stGet st i).ref.name (!aw))

theorem SchedInv_refl (init : List TeamState)
    (hn : ∀ i, (stGet init i).name = (stGet init i).ref.name)
    (ht : ∀ i, (stGet init i).totalGames = countGames (wksOf init i))
    (ha : ∀ i w, w ∈ (stGet init i).availableWeeks →
      ∃ s, (wksOf init i).get? w = some s ∧ isOpen s = true) :
    SchedInv init init where
  len := rfl
  nameRef := hn
  nameEq := fun _ => rfl
  confEq := fun _ => rfl
  oocNEq := fun _ => rfl
  avail := ha
  pres := fun i w a b h1 h2 => Or.inl (by rw [h1] at h2; injection h2 with h; exact h.symm)
  wlen := fun _ => rfl
  total := ht
  totalLe := fun i => Nat.le_max_right _ _
  sumEq := rfl
  symm := fun i w op aw _ h => Or.inl h

theorem stGet_genStates (l : List Team) (i : Nat) :
    stGet (genStates l) i = computeTeamState (l.getD i dummyTeam) := by
  unfold stGet genStates dummyState
  rw [List.getD, List.getD, List.get?_map]
  cases l.get? i <;> rfl

theorem SchedInv_genStates (l : List Team) : SchedInv (genStates l) (genStates l) := by
  refine SchedInv_refl _ (fun i => ?_) (fun i => ?_) (fun i w h => ?_)
  · rw [stGet_genStates]; rfl
  · rw [wksOf, stGet_genStates]
    exact computeTeamState_total _
  · rw [wksOf, stGet_genStates]
    rw [stGet_genStates] at h
    exact computeTeamState_avail _ _ h

theorem placeGameAtWeek_def (st : List TeamState) (ia ib w : Nat) :
    placeGameAtWeek st ia ib w =
      (st.set ia (placeSide (stGet st ia) (stGet st ib).key (stGet st ib).name w
        (aIsHome (stGet st ia) (stGet st ib)))).set ib
        (placeSide (stGet st ib) (stGet st ia).key (stGet st ia).name w
          (!(aIsHome (stGet st ia) (stGet st ib)))) := rfl


theorem SchedInv_place {init st : List TeamState} {ia ib w : Nat}
    (inv : SchedInv init st) (hne : ia ≠ ib)
    (ha : ia < st.length) (hb : ib < st.length)
    (hwa : w ∈ (stGet st ia).availableWeeks)
    (hwb : w ∈ (stGet st ib).availableWeeks)
    (hcan : canScheduleBetween (stGet st ia) (stGet st ib) = true) :
    SchedInv init (placeGameAtWeek st ia ib w) := by
  obtain ⟨hkey, hconf, hAp, hBp, hAt, hBt⟩ := canScheduleBetween_spec hcan
  obtain ⟨sa, hsa, hsaO⟩ := inv.avail ia w hwa
  obtain ⟨sb, hsb, hsbO⟩ := inv.avail ib w hwb
  have hwlta : w < (wksOf st ia).length := lt_of_get?_eq_some hsa
  have hwltb : w < (wksOf st ib).length := lt_of_get?_eq_some hsb
  have hga : stGet (placeGameAtWeek st ia ib w) ia =
      placeSide (stGet st ia) (stGet st ib).key (stGet st ib).name w
        (aIsHome (stGet st ia) (stGet st ib)) := stGet_place_fst hne ha
  have hgb : stGet (placeGameAtWeek st ia ib w) ib =
      placeSide (stGet st ib) (stGet st ia).key (stGet st ia).name w
        (!(aIsHome (stGet st ia) (stGet st ib))) := stGet_place_snd hb
  have hother : ∀ i, i ≠ ia → i ≠ ib →
      stGet (placeGameAtWeek st ia ib w) i = stGet st i :=
    fun i h1 h2 => stGet_place_other h1 h2
  have hlen : (placeGameAtWeek st ia ib w).length = st.length := place_length st ia ib w
  have hwka : wksOf (placeGameAtWeek st ia ib w) ia =
      (wksOf st ia).set w (.oocGame (stGet st ib).name
        (!(aIsHome (stGet st ia) (stGet st ib)))) := by
    show (stGet (placeGameAtWeek st ia ib w) ia).ref.weeks = _
    rw [hga, placeSide_wks]; rfl
  have hwkb : wksOf (placeGameAtWeek st ia ib w) ib =
      (wksOf st ib).set w (.oocGame (stGet st ia).name
        (!(!(aIsHome (stGet st ia) (stGet st ib))))) := by
    show (stGet (placeGameAtWeek st ia ib w) ib).ref.weeks = _
    rw [hgb, placeSide_wks]; rfl
  have hrname : ∀ i, (stGet (placeGameAtWeek st ia ib w) i).ref.name =
      (stGet st i).ref.name := by
    intro i
    by_cases h1 : i = ia
    · rw [h1, hga, placeSide_refName]
    · by_cases h2 : i = ib
      · rw [h2, hgb, placeSide_refName]
      · rw [hother i h1 h2]
  have hwk_other : ∀ i, i ≠ ia → i ≠ ib →
      wksOf (placeGameAtWeek st ia ib w) i = wksOf st i := by
    intro i h1 h2
    show (stGet (placeGameAtWeek st ia ib w) i).ref.weeks = _
    rw [hother i h1 h2]; rfl
  have hwk_ne : ∀ i w', w' ≠ w →
      (wksOf (placeGameAtWeek st ia ib w) i).get? w' = (wksOf st i).get? w' := by
    intro i w' hw'
    by_cases h1 : i = ia
    · rw [h1, hwka, get?_set_ne' _ (Ne.symm hw')]
    · by_cases h2 : i = ib
      · rw [h2, hwkb, get?_set_ne' _ (Ne.symm hw')]
      · rw [hwk_other i h1 h2]
  refine ⟨?_, ?_, ?_, ?_, ?_, ?_, ?_, ?_, ?_, ?_, ?_, ?_⟩
  · -- len
    rw [hlen, inv.len]
  · -- nameRef
    intro i
    by_cases h1 : i = ia
    · rw [h1, hga, placeSide_name, placeSide_refName]; exact inv.nameRef ia
    · by_cases h2 : i = ib
      · rw [h2, hgb, placeSide_name, placeSide_refName]; exact inv.nameRef ib
      · rw [hother i h1 h2]; exact inv.nameRef i
  · -- nameEq
    intro i; rw [hrname i]; exact inv.nameEq i
  · -- confEq
    intro i
    by_cases h1 : i = ia
    · rw [h1, hga, placeSide_refConf]; exact inv.confEq ia
    · by_cases h2 : i = ib
      · rw [h2, hgb, placeSide_refConf]; exact inv.confEq ib
      · rw [hother i h1 h2]; exact inv.confEq i
  · -- oocNEq
    intro i
    by_cases h1 : i = ia
    · rw [h1, hga, placeSide_refOocN]; exact inv.oocNEq ia
    · by_cases h2 : i = ib
      · rw [h2, hgb, placeSide_refOocN]; exact inv.oocNEq ib
      · rw [hother i h1 h2]; exact inv.oocNEq i
  · -- avail
    intro i w' hmem
    by_cases h1 : i = ia
    · rw [h1] at hmem ⊢
      rw [hga, placeSide_avail] at hmem
      have hm := List.mem_of_mem_filter hmem
      have hne' : w' ≠ w := by simpa using List.of_mem_filter hmem
      obtain ⟨s, hs, hso⟩ := inv.avail ia w' hm
      exact ⟨s, by rw [hwka, get?_set_ne' _ (Ne.symm hne')]; exact hs, hso⟩
    · by_cases h2 : i = ib
      · rw [h2] at hmem ⊢
        rw [hgb, placeSide_avail] at hmem
        have hm := List.mem_of_mem_filter hmem
        have hne' : w' ≠ w := by simpa using List.of_mem_filter hmem
        obtain ⟨s, hs, hso⟩ := inv.avail ib w' hm
        exact ⟨s, by rw [hwkb, get?_set_ne' _ (Ne.symm hne')]; exact hs, hso⟩
      · rw [hother i h1 h2] at hmem
        obtain ⟨s, hs, hso⟩ := inv.avail i w' hmem
        exact ⟨s, by rw [hwk_other i h1 h2]; exact hs, hso⟩
  · -- pres
    intro i w' a b h1 h2
    by_cases hw' : w' = w
    · rw [hw'] at h1 h2
      by_cases hia : i = ia
      · rw [hia] at h1 h2
        rw [hwka, get?_set_self' _ hwlta] at h2
        injection h2 with h2
        subst h2
        have hrel := inv.pres ia w a sa h1 hsa
        rcases hrel with heq | ⟨hopen, hooc⟩
        · exact Or.inr ⟨by rw [← heq]; exact hsaO, rfl⟩
        · rw [isOpen_not_isOoc hsaO] at hooc; cases hooc
      · by_cases hib : i = ib
        · rw [hib] at h1 h2
          rw [hwkb, get?_set_self' _ hwltb] at h2
          injection h2 with h2
          subst h2
          have hrel := inv.pres ib w a sb h1 hsb
          rcases hrel with heq | ⟨hopen, hooc⟩
          · exact Or.inr ⟨by rw [← heq]; exact hsbO, rfl⟩
          · rw [isOpen_not_isOoc hsbO] at hooc; cases hooc
        · rw [hwk_other i hia hib] at h2
          exact inv.pres i w a b h1 h2
    · rw [hwk_ne i w' hw'] at h2
      exact inv.pres i w' a b h1 h2
  · -- wlen
    intro i
    by_cases h1 : i = ia
    · rw [h1, hwka, List.length_set]; exact inv.wlen ia
    · by_cases h2 : i = ib
      · rw [h2, hwkb, List.length_set]; exact inv.wlen ib
      · rw [hwk_other i h1 h2]; exact inv.wlen i
  · -- total
    intro i
    by_cases h1 : i = ia
    · rw [h1, hga, placeSide_total, hwka]
      unfold countGames
      rw [countP_set_true isGame _ w sa (.oocGame (stGet st ib).name
        (!(aIsHome (stGet st ia) (stGet st ib)))) hsa (isOpen_not_isGame hsaO) rfl]
      have := inv.total ia
      unfold countGames at this
      omega
    · by_cases h2 : i = ib
      · rw [h2, hgb, placeSide_total, hwkb]
        unfold countGames
        rw [countP_set_true isGame _ w sb (.oocGame (stGet st ia).name
          (!(!(aIsHome (stGet st ia) (stGet st ib))))) hsb (isOpen_not_isGame hsbO) rfl]
        have := inv.total ib
        unfold countGames at this
        omega
      · rw [hother i h1 h2, hwk_other i h1 h2]; exact inv.total i
  · -- totalLe
    intro i
    by_cases h1 : i = ia
    · rw [h1, hga, placeSide_total]
      exact le_trans (by omega) (Nat.le_max_left _ _)
    · by_cases h2 : i = ib
      · rw [h2, hgb, placeSide_total]
        exact le_trans (by omega) (Nat.le_max_left _ _)
      · rw [hother i h1 h2]; exact inv.totalLe i
  · -- sumEq
    have e1 : sumRemaining (st.set ia (placeSide (stGet st ia) (stGet st ib).key
        (stGet st ib).name w (aIsHome (stGet st ia) (stGet st ib)))) +
        (stGet st ia).oocRemaining
        = sumRemaining st + (placeSide (stGet st ia) (stGet st ib).key
          (stGet st ib).name w (aIsHome (stGet st ia) (stGet st ib))).oocRemaining :=
      sum_map_set (fun s => s.oocRemaining) st ia _ ha
    have e2 : sumRemaining (placeGameAtWeek st ia ib w) +
        (stGet (st.set ia (placeSide (stGet st ia) (stGet st ib).key
          (stGet st ib).name w (aIsHome (stGet st ia) (stGet st ib)))) ib).oocRemaining
        = sumRemaining (st.set ia (placeSide (stGet st ia) (stGet st ib).key
          (stGet st ib).name w (aIsHome (stGet st ia) (stGet st ib)))) +
          (placeSide (stGet st ib) (stGet st ia).key (stGet st ia).name w
            (!(aIsHome (stGet st ia) (stGet st ib)))).oocRemaining := by
      rw [placeGameAtWeek_def]
      exact sum_map_set (fun s => s.oocRemaining) _ ib _ (by rw [List.length_set]; exact hb)
    rw [stGet_set_ne _ hne] at e2
    rw [placeSide_ooc] at e1 e2
    have g1 : countOocAll (st.set ia (placeSide (stGet st ia) (stGet st ib).key
        (stGet st ib).name w (aIsHome (stGet st ia) (stGet st ib)))) +
        countOoc (stGet st ia).ref.weeks
        = countOocAll st + countOoc ((placeSide (stGet st ia) (stGet st ib).key
          (stGet st ib).name w (aIsHome (stGet st ia) (stGet st ib))).ref.weeks) :=
      sum_map_set (fun s => countOoc s.ref.weeks) st ia _ ha
    have g2 : countOocAll (placeGameAtWeek st ia ib w) +
        countOoc ((stGet (st.set ia (placeSide (stGet st ia) (stGet st ib).key
          (stGet st ib).name w (aIsHome (stGet st ia) (stGet st ib)))) ib).ref.weeks)
        = countOocAll (st.set ia (placeSide (stGet st ia) (stGet st ib).key
          (stGet st ib).name w (aIsHome (stGet st ia) (stGet st ib)))) +
          countOoc ((placeSide (stGet st ib) (stGet st ia).key (stGet st ia).name w
            (!(aIsHome (stGet st ia) (stGet st ib)))).ref.weeks) := by
      rw [placeGameAtWeek_def]
      exact sum_map_set (fun s => countOoc s.ref.weeks) _ ib _
        (by rw [List.length_set]; exact hb)
    rw [stGet_set_ne _ hne] at g2
    have gna : countOoc ((placeSide (stGet st ia) (stGet st ib).key
        (stGet st ib).name w (aIsHome (stGet st ia) (stGet st ib))).ref.weeks)
        = countOoc (stGet st ia).ref.weeks + 1 := by
      rw [placeSide_wks]
      exact countP_set_true isOoc _ w sa _ hsa (isOpen_not_isOoc hsaO) rfl
    have gnb : countOoc ((placeSide (stGet st ib) (stGet st ia).key
        (stGet st ia).name w (!(aIsHome (stGet st ia) (stGet st ib)))).ref.weeks)
        = countOoc (stGet st ib).ref.weeks + 1 := by
      rw [placeSide_wks]
      exact countP_set_true isOoc _ w sb _ hsb (isOpen_not_isOoc hsbO) rfl
    have hsums := inv.sumEq
    omega
  · -- symm
    intro i w' op aw hi h
    have hi' : i < st.length := by rw [hlen] at hi; exact hi
    by_cases hw' : w' = w
    · rw [hw'] at h ⊢
      by_cases hia : i = ia
      · rw [hia] at h ⊢
        rw [hwka, get?_set_self' _ hwlta] at h
        injection h with h
        injection h with hop haw
        right
        refine ⟨ib, by rw [hlen]; exact hb, Ne.symm hne, ?_, ?_⟩
        · rw [hrname ib, ← inv.nameRef ib]; exact hop
        · rw [hwkb, get?_set_self' _ hwltb, hrname ia, ← inv.nameRef ia, ← haw]
      · by_cases hib : i = ib
        · rw [hib] at h ⊢
          rw [hwkb, get?_set_self' _ hwltb] at h
          injection h with h
          injection h with hop haw
          right
          refine ⟨ia, by rw [hlen]; exact ha, hne, ?_, ?_⟩
          · rw [hrname ia, ← inv.nameRef ia]; exact hop
          · rw [hwka, get?_set_self' _ hwlta, hrname ib, ← inv.nameRef ib, ← haw]
            simp [Bool.not_not]
        · rw [hwk_other i hia hib] at h
          rcases inv.symm i w op aw hi' h with hinit | ⟨j, hj, hjne, hjname, hjslot⟩
          · exact Or.inl hinit
          · right
            have hj1 : j ≠ ia := by
              rintro rfl
              rw [hsa] at hjslot
              injection hjslot with hh
              rw [hh] at hsaO
              simp [isOpen] at hsaO
            have hj2 : j ≠ ib := by
              rintro rfl
              rw [hsb] at hjslot
              injection hjslot with hh
              rw [hh] at hsbO
              simp [isOpen] at hsbO
            refine ⟨j, by rw [hlen]; exact hj, hjne, ?_, ?_⟩
            · rw [hrname j]; exact hjname
            · rw [hwk_other j hj1 hj2, hrname i]; exact hjslot
    · rw [hwk_ne i w' hw'] at h
      rcases inv.symm i w' op aw hi' h with hinit | ⟨j, hj, hjne, hjname, hjslot⟩
      · exact Or.inl hinit
      · right
        refine ⟨j, by rw [hlen]; exact hj, hjne, ?_, ?_⟩
        · rw [hrname j]; exact hjname
        · rw [hwk_ne j w' hw', hrname i]; exact hjslot

theorem mem_eligibleIdx {st : List TeamState} {w x : Nat}
    (h : x ∈ eligibleIdx st w) :
    x < st.length ∧ 0 < (stGet st x).oocRemaining ∧
      w ∈ (stGet st x).availableWeeks ∧ (stGet st x).totalGames < 12 := by
  unfold eligibleIdx at h
  have hx := List.mem_range.mp (List.mem_of_mem_filter h)
  have hp := List.of_mem_filter h
  simp only [Bool.and_eq_true, decide_eq_true_eq] at hp
  exact ⟨hx, hp.1.1, List.mem_of_elem_eq_true hp.1.2, hp.2⟩

theorem candFilter_spec {st : List TeamState} {used : List String} {w t o : Nat}
    (h : candFilter st used w t o = true) :
    o ≠ t ∧ used.contains (stGet st o).key = false ∧
      w ∈ (stGet st o).availableWeeks ∧
      canScheduleBetween (stGet st t) (stGet st o) = true := by
  unfold candFilter at h
  simp only [Bool.and_eq_true, bne_iff_ne, Bool.not_eq_true'] at h
  exact ⟨h.1.1.1, h.1.1.2, List.mem_of_elem_eq_true h.1.2, h.2⟩

theorem goWeek_inv {init stW : List TeamState} {w : Nat} {elig : List Nat}
    (hElig : ∀ x ∈ elig, x < stW.length ∧ w ∈ (stGet stW x).availableWeeks) :
    ∀ (rest : List Nat) (st : List TeamState) (used : List String),
      (∀ x ∈ rest, x ∈ elig) →
      SchedInv init st →
      st.length = stW.length →
      (∀ i, (stGet st i).key ∉ used → stGet st i = stGet stW i) →
      SchedInv init (goWeek w elig rest st used) := by
  intro rest
  induction rest with
  | nil => intro st used _ inv _ _; exact inv
  | cons t rest ih =>
    intro st used hsub inv hlen hLw
    unfold goWeek
    by_cases hused : used.contains (stGet st t).key = true
    · rw [if_pos hused]
      exact ih st used (fun x hx => hsub x (List.mem_cons_of_mem _ hx)) inv hlen hLw
    · rw [if_neg hused]
      cases hc : sortJS (candLe st) (elig.filter (candFilter st used w t)) with
      | nil =>
        exact ih st used (fun x hx => hsub x (List.mem_cons_of_mem _ hx)) inv hlen hLw
      | cons opp rest2 =>
        have hoppmem : opp ∈ elig.filter (candFilter st used w t) := by
          have hmem : opp ∈ sortJS (candLe st) (elig.filter (candFilter st used w t)) := by
            rw [hc]; exact List.mem_cons_self _ _
          exact (mem_sortJS _ _ _).mp hmem
        have hoppe : opp ∈ elig := List.mem_of_mem_filter hoppmem
        obtain ⟨hot, hoppused, hoppw, hcan⟩ := candFilter_spec (List.of_mem_filter hoppmem)
        have htmem : t ∈ elig := hsub t (List.mem_cons_self _ _)
        obtain ⟨htlt, htw⟩ := hElig t htmem
        obtain ⟨holt, _⟩ := hElig opp hoppe
        have htunch : stGet st t = stGet stW t :=
          hLw t (fun hmem => hused (List.elem_eq_true_of_mem hmem))
        have htwa : w ∈ (stGet st t).availableWeeks := by rw [htunch]; exact htw
        have hne : t ≠ opp := Ne.symm hot
        have htlt' : t < st.length := by rw [hlen]; exact htlt
        have holt' : opp < st.length := by rw [hlen]; exact holt
        have inv' := SchedInv_place inv hne htlt' holt' htwa hoppw hcan
        apply ih _ _ (fun x hx => hsub x (List.mem_cons_of_mem _ hx)) inv'
        · rw [place_length]; exact hlen
        · intro i hkeyn
          by_cases hit : i = t
          · exfalso
            apply hkeyn
            rw [hit, stGet_place_fst hne htlt', placeSide_key]
            simp [List.mem_append]
          · by_cases hio : i = opp
            · exfalso
              apply hkeyn
              rw [hio, stGet_place_snd holt', placeSide_key]
              simp [List.mem_append]
            · rw [stGet_place_other hit hio] at hkeyn ⊢
              exact hLw i (fun hmem => hkeyn (List.mem_append_left _ hmem))

theorem weekPass_inv {init st : List TeamState} (w : Nat) (inv : SchedInv init st) :
    SchedInv init (weekPass w st) := by
  unfold weekPass
  exact @goWeek_inv init st w (sortJS (eligLe st) (eligibleIdx st w))
    (fun x hx => ⟨(mem_eligibleIdx ((mem_sortJS _ _ _).mp hx)).1,
      (mem_eligibleIdx ((mem_sortJS _ _ _).mp hx)).2.2.1⟩)
    (sortJS (eligLe st) (eligibleIdx st w)) st [] (fun x hx => hx) inv rfl
    (fun i _ => rfl)

theorem foldl_weekPass_inv {init : List TeamState} :
    ∀ (ws : List Nat) (st : List TeamState), SchedInv init st →
      SchedInv init (ws.foldl (fun s w => weekPass w s) st) := by
  intro ws
  induction ws with
  | nil => intro st inv; exact inv
  | cons w ws ih => intro st inv; exact ih _ (weekPass_inv w inv)

theorem finalState_inv (l : List Team) (avoid : Bool) :
    SchedInv (genStates l) (finalState l avoid) :=
  foldl_weekPass_inv _ _ (SchedInv_genStates l)

/-! ## Ghost counter: the matcher's placement count -/

theorem place_sum {st : List TeamState} {ia ib w : Nat}
    (hne : ia ≠ ib) (ha : ia < st.length) (hb : ib < st.length)
    (hAp : 0 < (stGet st ia).oocRemaining) (hBp : 0 < (stGet st ib).oocRemaining) :
    sumRemaining (placeGameAtWeek st ia ib w) + 2 = sumRemaining st := by
  have e1 : sumRemaining (st.set ia (placeSide (stGet st ia) (stGet st ib).key
      (stGet st ib).name w (aIsHome (stGet st ia) (stGet st ib)))) +
      (stGet st ia).oocRemaining
      = sumRemaining st + (placeSide (stGet st ia) (stGet st ib).key
        (stGet st ib).name w (aIsHome (stGet st ia) (stGet st ib))).oocRemaining :=
    sum_map_set (fun s => s.oocRemaining) st ia _ ha
  have e2 : sumRemaining (placeGameAtWeek st ia ib w) +
      (stGet (st.set ia (placeSide (stGet st ia) (stGet st ib).key
        (stGet st ib).name w (aIsHome (stGet st ia) (stGet st ib)))) ib).oocRemaining
      = sumRemaining (st.set ia (placeSide (stGet st ia) (stGet st ib).key
        (stGet st ib).name w (aIsHome (stGet st ia) (stGet st ib)))) +
        (placeSide (stGet st ib) (stGet st ia).key (stGet st ia).name w
          (!(aIsHome (stGet st ia) (stGet st ib)))).oocRemaining := by
    rw [placeGameAtWeek_def]
    exact sum_map_set (fun s => s.oocRemaining) _ ib _ (by rw [List.length_set]; exact hb)
  rw [stGet_set_ne _ hne] at e2
  rw [placeSide_ooc] at e1 e2
  omega

theorem goWeekC_fst (w : Nat) (elig : List Nat) :
    ∀ (rest : List Nat) (st : List TeamState) (used : List String) (c : Nat),
      (goWeekC w elig rest st used c).1 = goWeek w elig rest st used := by
  intro rest
  induction rest with
  | nil => intro st used c; rfl
  | cons t rest ih =>
    intro st used c
    unfold goWeek goWeekC
    by_cases hused : used.contains (stGet st t).key = true
    · rw [if_pos hused, if_pos hused]; exact ih st used c
    · rw [if_neg hused, if_neg hused]
      cases hc : sortJS (candLe st) (elig.filter (candFilter st used w t)) with
      | nil => exact ih st used c
      | cons opp r2 => exact ih _ _ _

theorem goWeekC_sum {stW : List TeamState} {w : Nat} {elig : List Nat}
    (hElig : ∀ x ∈ elig, x < stW.length) :
    ∀ (rest : List Nat) (st : List TeamState) (used : List String) (c : Nat),
      (∀ x ∈ rest, x ∈ elig) →
      st.length = stW.length →
      sumRemaining (goWeekC w elig rest st used c).1 +
        2 * (goWeekC w elig rest st used c).2 = sumRemaining st + 2 * c := by
  intro rest
  induction rest with
  | nil => intro st used c _ _; rfl
  | cons t rest ih =>
    intro st used c hsub hlen
    unfold goWeekC
    by_cases hused : used.contains (stGet st t).key = true
    · rw [if_pos hused]
      exact ih st used c (fun x hx => hsub x (List.mem_cons_of_mem _ hx)) hlen
    · rw [if_neg hused]
      cases hc : sortJS (candLe st) (elig.filter (candFilter st used w t)) with
      | nil => exact ih st used c (fun x hx => hsub x (List.mem_cons_of_mem _ hx)) hlen
      | cons opp r2 =>
        have hoppmem : opp ∈ elig.filter (candFilter st used w t) := by
          have hmem : opp ∈ sortJS (candLe st) (elig.filter (candFilter st used w t)) := by
            rw [hc]; exact List.mem_cons_self _ _
          exact (mem_sortJS _ _ _).mp hmem
        obtain ⟨hot, _, _, hcan⟩ := candFilter_spec (List.of_mem_filter hoppmem)
        obtain ⟨_, _, hAp, hBp, _, _⟩ := canScheduleBetween_spec hcan
        have htlt : t < st.length := by
          rw [hlen]; exact hElig t (hsub t (List.mem_cons_self _ _))
        have holt : opp < st.length := by
          rw [hlen]; exact hElig opp (List.mem_of_mem_filter hoppmem)
        have hplace := @place_sum st t opp w (Ne.symm hot) htlt holt hAp hBp
        have ihr := ih (placeGameAtWeek st t opp w)
          (used ++ [(stGet st t).key, (stGet st opp).key]) (c + 1)
          (fun x hx => hsub x (List.mem_cons_of_mem _ hx))
          (by rw [place_length]; exact hlen)
        show sumRemaining (goWeekC w elig rest (placeGameAtWeek st t opp w)
            (used ++ [(stGet st t).key, (stGet st opp).key]) (c + 1)).1 +
          2 * (goWeekC w elig rest (placeGameAtWeek st t opp w)
            (used ++ [(stGet st t).key, (stGet st opp).key]) (c + 1)).2
          = sumRemaining st + 2 * c
        omega

theorem weekPassC_fst (w : Nat) (p : List TeamState × Nat) :
    (weekPassC w p).1 = weekPass w p.1 := by
  unfold weekPassC weekPass
  exact goWeekC_fst w _ _ p.1 [] p.2

theorem weekPassC_sum (w : Nat) (p : List TeamState × Nat) :
    sumRemaining (weekPassC w p).1 + 2 * (weekPassC w p).2
      = sumRemaining p.1 + 2 * p.2 := by
  unfold weekPassC
  exact @goWeekC_sum p.1 w (sortJS (eligLe p.1) (eligibleIdx p.1 w))
    (fun x hx => (mem_eligibleIdx ((mem_sortJS _ _ _).mp hx)).1)
    (sortJS (eligLe p.1) (eligibleIdx p.1 w)) p.1 [] p.2 (fun x hx => hx) rfl

theorem foldC_fst :
    ∀ (ws : List Nat) (p : List TeamState × Nat),
      (ws.foldl (fun q w => weekPassC w q) p).1
        = ws.foldl (fun s w => weekPass w s) p.1 := by
  intro ws
  induction ws with
  | nil => intro p; rfl
  | cons w ws ih =>
    intro p
    show (ws.foldl _ (weekPassC w p)).1 = ws.foldl _ (weekPass w p.1)
    rw [ih (weekPassC w p), weekPassC_fst]

theorem foldC_sum :
    ∀ (ws : List Nat) (p : List TeamState × Nat),
      sumRemaining (ws.foldl (fun q w => weekPassC w q) p).1 +
        2 * (ws.foldl (fun q w => weekPassC w q) p).2
        = sumRemaining p.1 + 2 * p.2 := by
  intro ws
  induction ws with
  | nil => intro p; rfl
  | cons w ws ih =>
    intro p
    have h1 := ih (weekPassC w p)
    have h2 := weekPassC_sum w p
    show sumRemaining (ws.foldl _ (weekPassC w p)).1 +
      2 * (ws.foldl _ (weekPassC w p)).2 = _
    omega

theorem finalStateC_fst (l : List Team) (avoid : Bool) :
    (finalStateC l avoid).1 = finalState l avoid :=
  foldC_fst (weekOrder avoid) (genStates l, 0)

theorem sum_finalState_games (l : List Team) (avoid : Bool) :
    sumRemaining (finalState l avoid) + 2 * gamesPlaced l avoid
      = sumRemaining (genStates l) := by
  have h : sumRemaining ((weekOrder avoid).foldl (fun q w => weekPassC w q)
        (genStates l, 0)).1 +
      2 * ((weekOrder avoid).foldl (fun q w => weekPassC w q) (genStates l, 0)).2
      = sumRemaining (genStates l) :=
    foldC_sum (weekOrder avoid) (genStates l, 0)
  unfold gamesPlaced finalStateC
  rw [← finalStateC_fst]
  unfold finalStateC
  omega

/-! ## The bye distribution pass -/

theorem forall₂_get?_of {R : α → β → Prop} {l₁ : List α} {l₂ : List β}
    (h : List.Forall₂ R l₁ l₂) :
    l₁.length = l₂.length ∧
      ∀ i a b, l₁.get? i = some a → l₂.get? i = some b → R a b := by
  induction h with
  | nil =>
    refine ⟨rfl, ?_⟩
    intro i a b ha
    simp at ha
  | @cons x y l₁ l₂ hab hrest ih =>
    refine ⟨by simpa using ih.1, ?_⟩
    intro i a b ha hb
    cases i with
    | zero =>
      injection ha with ha; injection hb with hb
      rw [← ha, ← hb]; exact hab
    | succ n => exact ih.2 n a b (by simpa using ha) (by simpa using hb)

theorem countB_byes : ∀ (l : List WeekSlot),
    ((List.range l.length).filter
      (fun i => decide (l.get? i = some WeekSlot.bye))).length = countByes l := by
  intro l
  induction l with
  | nil => rfl
  | cons x xs ih =>
    unfold countByes at ih ⊢
    rw [List.countP_cons]
    rw [show (x :: xs).length = xs.length + 1 from rfl, List.range_succ_eq_map]
    rw [List.filter_cons, List.filter_map]
    have hcg : ((fun i => decide ((x :: xs).get? i = some WeekSlot.bye)) ∘ Nat.succ)
        = (fun i => decide (xs.get? i = some WeekSlot.bye)) := rfl
    rw [hcg]
    simp only [List.get?_eq_getElem?] at ih
    by_cases hx : x = WeekSlot.bye
    · simp [hx, ih]
    · simp [hx, ih]

/-- Invariant tying a `ByeView` back to the team it was built from:
identities unchanged, slots only evolved along `relB`, the `byes` list
counts the bye slots, the empties lists point exactly at the remaining
`empty` slots, without duplicates and disjointly. -/
structure ByeInv (orig : Team) (v : ByeView) : Prop where
  nameEq : v.t.name = orig.name
  confEq : v.t.conference = orig.conference
  oocEq : v.t.oocNeeded = orig.oocNeeded
  rel : List.Forall₂ relB orig.weeks v.t.weeks
  byesLen : v.byes.length = countByes v.t.weeks
  ptrN : ∀ i ∈ v.emptiesNon0, v.t.weeks.get? i = some .empty
  ptr0 : ∀ i ∈ v.empties0, v.t.weeks.get? i = some .empty
  complete : ∀ i, v.t.weeks.get? i = some .empty →
    i ∈ v.emptiesNon0 ∨ i ∈ v.empties0
  ndN : v.emptiesNon0.Nodup
  nd0 : v.empties0.Nodup
  disj : ∀ i ∈ v.emptiesNon0, i ∉ v.empties0

theorem ByeInv_mk (t : Team) : ByeInv t (mkByeView t) where
  nameEq := rfl
  confEq := rfl
  oocEq := rfl
  rel := List.forall₂_same.mpr (fun x _ => Or.inl rfl)
  byesLen := countB_byes t.weeks
  ptrN := by
    intro i hi
    have := List.of_mem_filter hi
    simp only [decide_eq_true_eq] at this
    exact this.2
  ptr0 := by
    intro i hi
    have := List.of_mem_filter hi
    simp only [decide_eq_true_eq] at this
    exact this.2
  complete := by
    intro i hget
    have hlt : i < t.weeks.length := lt_of_get?_eq_some hget
    by_cases h0 : i = 0
    · right
      exact List.mem_filter_of_mem (List.mem_range.mpr hlt)
        (by simp only [decide_eq_true_eq]; exact ⟨h0, hget⟩)
    · left
      exact List.mem_filter_of_mem (List.mem_range.mpr hlt)
        (by simp only [decide_eq_true_eq]; exact ⟨h0, hget⟩)
  ndN := List.Nodup.filter _ (List.nodup_range _)
  nd0 := List.Nodup.filter _ (List.nodup_range _)
  disj := by
    intro i hi hmem
    have h1 := List.of_mem_filter hi
    have h2 := List.of_mem_filter hmem
    simp only [decide_eq_true_eq] at h1 h2
    exact h1.1 h2.1

theorem byePopNon0_eq {v : ByeView} {i : Nat} {rest : List Nat}
    (hE : v.emptiesNon0 = i :: rest) :
    byePopNon0 v = applyBye { v with emptiesNon0 := rest } i := by
  unfold byePopNon0
  rw [hE]

theorem byePop0_eq {v : ByeView} {i : Nat} {rest : List Nat}
    (hE : v.empties0 = i :: rest) :
    byePop0 v = applyBye { v with empties0 := rest } i := by
  unfold byePop0
  rw [hE]

theorem byePopNon0_nil {v : ByeView} (hE : v.emptiesNon0 = []) : byePopNon0 v = v := by
  unfold byePopNon0
  rw [hE]

theorem byePop0_nil {v : ByeView} (hE : v.empties0 = []) : byePop0 v = v := by
  unfold byePop0
  rw [hE]

theorem ByeInv_popNon0 {orig : Team} {v : ByeView} (inv : ByeInv orig v) :
    ByeInv orig (byePopNon0 v) := by
  cases hE : v.emptiesNon0 with
  | nil => rw [byePopNon0_nil hE]; exact inv
  | cons i rest =>
    rw [byePopNon0_eq hE]
    have hget : v.t.weeks.get? i = some .empty :=
      inv.ptrN i (by rw [hE]; exact List.mem_cons_self _ _)
    have hlt : i < v.t.weeks.length := lt_of_get?_eq_some hget
    have hndN : (i :: rest).Nodup := by rw [← hE]; exact inv.ndN
    have hiNR : i ∉ rest := (List.nodup_cons.mp hndN).1
    have hi0 : i ∉ v.empties0 :=
      inv.disj i (by rw [hE]; exact List.mem_cons_self _ _)
    refine ⟨inv.nameEq, inv.confEq, inv.oocEq, ?_, ?_, ?_, ?_, ?_, ?_, ?_, ?_⟩
    · -- rel
      obtain ⟨hlen2, hpt⟩ := forall₂_get?_of inv.rel
      apply forall₂_of_get?
      · simpa [applyBye, List.length_set] using hlen2
      · intro j x y hjx hjy
        simp only [applyBye] at hjy
        by_cases hji : j = i
        · rw [hji] at hjx hjy
          rw [get?_set_self' _ hlt] at hjy
          injection hjy with hjy
          rw [← hjy]
          have hrel := hpt i x .empty hjx hget
          rcases hrel with h | ⟨h1, h2⟩
          · rw [← h]; exact Or.inr ⟨rfl, rfl⟩
          · simp at h2
        · rw [get?_set_ne' _ (Ne.symm hji)] at hjy
          exact hpt j x y hjx hjy
    · -- byesLen
      show (v.byes ++ [i]).length = countByes (v.t.weeks.set i .bye)
      rw [List.length_append]
      unfold countByes
      rw [countP_set_true _ _ i .empty .bye hget (by decide) (by decide)]
      have := inv.byesLen
      unfold countByes at this
      simp [this]
    · -- ptrN
      intro j hj
      have hjr : j ∈ rest := hj
      have hji : j ≠ i := fun h => hiNR (h ▸ hjr)
      show (v.t.weeks.set i .bye).get? j = some .empty
      rw [get?_set_ne' _ (Ne.symm hji)]
      exact inv.ptrN j (by rw [hE]; exact List.mem_cons_of_mem _ hjr)
    · -- ptr0
      intro j hj
      have hj0 : j ∈ v.empties0 := hj
      have hji : j ≠ i := fun h => hi0 (h ▸ hj0)
      show (v.t.weeks.set i .bye).get? j = some .empty
      rw [get?_set_ne' _ (Ne.symm hji)]
      exact inv.ptr0 j hj0
    · -- complete
      intro j hj
      by_cases hji : j = i
      · rw [hji] at hj
        rw [show (applyBye { v with emptiesNon0 := rest } i).t.weeks
            = v.t.weeks.set i .bye from rfl, get?_set_self' _ hlt] at hj
        injection hj with hj
        cases hj
      · rw [show (applyBye { v with emptiesNon0 := rest } i).t.weeks
            = v.t.weeks.set i .bye from rfl, get?_set_ne' _ (Ne.symm hji)] at hj
        rcases inv.complete j hj with hm | hm
        · rw [hE] at hm
          rcases List.mem_cons.mp hm with h | h
          · exact absurd h hji
          · exact Or.inl h
        · exact Or.inr hm
    · exact (List.nodup_cons.mp hndN).2
    · exact inv.nd0
    · intro j hj
      exact inv.disj j (by rw [hE]; exact List.mem_cons_of_mem _ hj)

theorem ByeInv_pop0 {orig : Team} {v : ByeView} (inv : ByeInv orig v) :
    ByeInv orig (byePop0 v) := by
  cases hE : v.empties0 with
  | nil => rw [byePop0_nil hE]; exact inv
  | cons i rest =>
    rw [byePop0_eq hE]
    have hget : v.t.weeks.get? i = some .empty :=
      inv.ptr0 i (by rw [hE]; exact List.mem_cons_self _ _)
    have hlt : i < v.t.weeks.length := lt_of_get?_eq_some hget
    have hnd0 : (i :: rest).Nodup := by rw [← hE]; exact inv.nd0
    have hiR : i ∉ rest := (List.nodup_cons.mp hnd0).1
    have hiN : i ∉ v.emptiesNon0 := fun hm => inv.disj i hm (by rw [hE]; exact List.mem_cons_self _ _)
    refine ⟨inv.nameEq, inv.confEq, inv.oocEq, ?_, ?_, ?_, ?_, ?_, ?_, ?_, ?_⟩
    · obtain ⟨hlen2, hpt⟩ := forall₂_get?_of inv.rel
      apply forall₂_of_get?
      · simpa [applyBye, List.length_set] using hlen2
      · intro j x y hjx hjy
        simp only [applyBye] at hjy
        by_cases hji : j = i
        · rw [hji] at hjx hjy
          rw [get?_set_self' _ hlt] at hjy
          injection hjy with hjy
          rw [← hjy]
          have hrel := hpt i x .empty hjx hget
          rcases hrel with h | ⟨h1, h2⟩
          · rw [← h]; exact Or.inr ⟨rfl, rfl⟩
          · simp at h2
        · rw [get?_set_ne' _ (Ne.symm hji)] at hjy
          exact hpt j x y hjx hjy
    · show (v.byes ++ [i]).length = countByes (v.t.weeks.set i .bye)
      rw [List.length_append]
      unfold countByes
      rw [countP_set_true _ _ i .empty .bye hget (by decide) (by decide)]
      have := inv.byesLen
      unfold countByes at this
      simp [this]
    · intro j hj
      have hjr : j ∈ v.emptiesNon0 := hj
      have hji : j ≠ i := fun h => hiN (h ▸ hjr)
      show (v.t.weeks.set i .bye).get? j = some .empty
      rw [get?_set_ne' _ (Ne.symm hji)]
      exact inv.ptrN j hjr
    · intro j hj
      have hjr : j ∈ rest := hj
      have hji : j ≠ i := fun h => hiR (h ▸ hjr)
      show (v.t.weeks.set i .bye).get? j = some .empty
      rw [get?_set_ne' _ (Ne.symm hji)]
      exact inv.ptr0 j (by rw [hE]; exact List.mem_cons_of_mem _ hjr)
    · intro j hj
      by_cases hji : j = i
      · rw [hji] at hj
        rw [show (applyBye { v with empties0 := rest } i).t.weeks
            = v.t.weeks.set i .bye from rfl, get?_set_self' _ hlt] at hj
        injection hj with hj
        cases hj
      · rw [show (applyBye { v with empties0 := rest } i).t.weeks
            = v.t.weeks.set i .bye from rfl, get?_set_ne' _ (Ne.symm hji)] at hj
        rcases inv.complete j hj with hm | hm
        · exact Or.inl hm
        · rw [hE] at hm
          rcases List.mem_cons.mp hm with h | h
          · exact absurd h hji
          · exact Or.inr h
    · exact inv.ndN
    · exact (List.nodup_cons.mp hnd0).2
    · intro j hj hmem
      exact inv.disj j hj (by rw [hE]; exact List.mem_cons_of_mem _ hmem)

theorem ByeInv_step {orig : Team} {v : ByeView} (a : Bool) (r : Nat)
    (inv : ByeInv orig v) : ByeInv orig (byeStep a r v) := by
  unfold byeStep
  split_ifs with h1 h2 h3 h4
  · exact inv
  · exact ByeInv_popNon0 inv
  · exact ByeInv_popNon0 inv
  · exact ByeInv_pop0 inv
  · exact inv

theorem byePopNon0_byes (v : ByeView) :
    (byePopNon0 v).byes.length = v.byes.length ∨
      ((byePopNon0 v).byes.length = v.byes.length + 1 ∧ v.emptiesNon0 ≠ []) := by
  cases hE : v.emptiesNon0 with
  | nil => rw [byePopNon0_nil hE]; exact Or.inl rfl
  | cons i rest =>
    rw [byePopNon0_eq hE]
    right
    constructor
    · show (v.byes ++ [i]).length = v.byes.length + 1
      simp
    · simp

theorem byePop0_byes (v : ByeView) :
    (byePop0 v).byes.length = v.byes.length ∨
      ((byePop0 v).byes.length = v.byes.length + 1 ∧ v.empties0 ≠ []) := by
  cases hE : v.empties0 with
  | nil => rw [byePop0_nil hE]; exact Or.inl rfl
  | cons i rest =>
    rw [byePop0_eq hE]
    right
    constructor
    · show (v.byes ++ [i]).length = v.byes.length + 1
      simp
    · simp

theorem byeStep_byes_bound (a : Bool) (r : Nat) (v : ByeView) :
    v.byes.length ≤ (byeStep a r v).byes.length ∧
      (byeStep a r v).byes.length ≤ max 3 v.byes.length := by
  unfold byeStep
  split_ifs with h1 h2 h3 h4
  · omega
  · push_neg at h1
    rcases byePopNon0_byes v with h | ⟨h, _⟩ <;> omega
  · push_neg at h1
    rcases byePopNon0_byes v with h | ⟨h, _⟩ <;> omega
  · push_neg at h1
    rcases byePop0_byes v with h | ⟨h, _⟩ <;> omega
  · omega

theorem byeStep_progress (a : Bool) (r : Nat) (v : ByeView) (hr3 : r ≤ 3)
    (h : r - 1 ≤ v.byes.length ∨ (v.emptiesNon0 = [] ∧ v.empties0 = [])) :
    r ≤ (byeStep a r v).byes.length ∨
      ((byeStep a r v).emptiesNon0 = [] ∧ (byeStep a r v).empties0 = []) := by
  unfold byeStep
  split_ifs with h1 h2 h3 h4
  · left; omega
  · push_neg at h1
    left
    rcases byePopNon0_byes v with hh | ⟨hh, _⟩
    · cases hE : v.emptiesNon0 with
      | nil => exact absurd hE h2.2
      | cons i rest =>
        rw [byePopNon0_eq hE] at hh
        rw [show (applyBye { v with emptiesNon0 := rest } i).byes
            = v.byes ++ [i] from rfl] at hh
        simp at hh
    · rcases h with hlen | ⟨hN, _⟩
      · omega
      · exact absurd hN h2.2
  · push_neg at h1
    left
    rcases byePopNon0_byes v with hh | ⟨hh, _⟩
    · cases hE : v.emptiesNon0 with
      | nil => exact absurd hE h3
      | cons i rest =>
        rw [byePopNon0_eq hE] at hh
        rw [show (applyBye { v with emptiesNon0 := rest } i).byes
            = v.byes ++ [i] from rfl] at hh
        simp at hh
    · rcases h with hlen | ⟨hN, _⟩
      · omega
      · exact absurd hN h3
  · push_neg at h1
    left
    rcases byePop0_byes v with hh | ⟨hh, _⟩
    · cases hE : v.empties0 with
      | nil => exact absurd hE h4
      | cons i rest =>
        rw [byePop0_eq hE] at hh
        rw [show (applyBye { v with empties0 := rest } i).byes
            = v.byes ++ [i] from rfl] at hh
        simp at hh
    · rcases h with hlen | ⟨hN, h0⟩
      · omega
      · exact absurd h0 h4
  · right
    push_neg at h3 h4
    exact ⟨h3, h4⟩

theorem byeStep_id_of_full (a : Bool) (r : Nat) (v : ByeView)
    (h3 : 3 ≤ v.byes.length) : byeStep a r v = v := by
  unfold byeStep
  rw [if_pos (Or.inr h3)]

theorem byeStep_id_of_exhausted (a : Bool) (r : Nat) (v : ByeView)
    (hN : v.emptiesNon0 = []) (h0 : v.empties0 = []) : byeStep a r v = v := by
  unfold byeStep
  simp [hN, h0]

theorem assignByes_eq_map (l : List Team) (a : Bool) :
    assignByes l a = l.map (byeProcess a) := by
  show ((((l.map mkByeView).map (byeStep a 1)).map (byeStep a 2)).map
    (byeStep a 3)).map (fun v => v.t) = l.map (byeProcess a)
  simp only [List.map_map]
  rfl

theorem ByeInv_process (a : Bool) (t : Team) :
    ByeInv t (byeStep a 3 (byeStep a 2 (byeStep a 1 (mkByeView t)))) :=
  ByeInv_step a 3 (ByeInv_step a 2 (ByeInv_step a 1 (ByeInv_mk t)))

theorem byeProcess_done (a : Bool) (t : Team) :
    3 ≤ (byeStep a 3 (byeStep a 2 (byeStep a 1 (mkByeView t)))).byes.length ∨
      ((byeStep a 3 (byeStep a 2 (byeStep a 1 (mkByeView t)))).emptiesNon0 = [] ∧
        (byeStep a 3 (byeStep a 2 (byeStep a 1 (mkByeView t)))).empties0 = []) := by
  have h1 := byeStep_progress a 1 (mkByeView t) (by omega) (Or.inl (by omega))
  have h2 := byeStep_progress a 2 (byeStep a 1 (mkByeView t)) (by omega)
    (by rcases h1 with h | h
        · exact Or.inl (by omega)
        · exact Or.inr h)
  have h3 := byeStep_progress a 3 (byeStep a 2 (byeStep a 1 (mkByeView t))) (by omega)
    (by rcases h2 with h | h
        · exact Or.inl (by omega)
        · exact Or.inr h)
  exact h3

theorem byeProcess_idem (a : Bool) (t : Team) :
    byeProcess a (byeProcess a t) = byeProcess a t := by
  have hInv := ByeInv_process a t
  rcases byeProcess_done a t with hfull | ⟨hN, h0⟩
  · have hc : 3 ≤ countByes (byeProcess a t).weeks := by
      have hb := hInv.byesLen
      show 3 ≤ countByes (byeStep a 3 (byeStep a 2 (byeStep a 1 (mkByeView t)))).t.weeks
      omega
    have hmk : 3 ≤ (mkByeView (byeProcess a t)).byes.length := by
      have := countB_byes (byeProcess a t).weeks
      show 3 ≤ ((List.range (byeProcess a t).weeks.length).filter
        (fun i => decide ((byeProcess a t).weeks.get? i = some WeekSlot.bye))).length
      omega
    show (byeStep a 3 (byeStep a 2 (byeStep a 1 (mkByeView (byeProcess a t))))).t
      = byeProcess a t
    rw [byeStep_id_of_full a 1 _ hmk, byeStep_id_of_full a 2 _ hmk,
      byeStep_id_of_full a 3 _ hmk]
    rfl
  · have hnoemp : ∀ i, ¬((byeProcess a t).weeks.get? i = some WeekSlot.empty) := by
      intro i hcon
      rcases hInv.complete i hcon with hmem | hmem
      · rw [hN] at hmem; simp at hmem
      · rw [h0] at hmem; simp at hmem
    have hmkN : (mkByeView (byeProcess a t)).emptiesNon0 = [] := by
      apply List.filter_eq_nil.mpr
      intro i _
      simp only [decide_eq_true_eq]
      rintro ⟨h1, h2⟩
      exact hnoemp i h2
    have hmk0 : (mkByeView (byeProcess a t)).empties0 = [] := by
      apply List.filter_eq_nil.mpr
      intro i _
      simp only [decide_eq_true_eq]
      rintro ⟨h1, h2⟩
      exact hnoemp i h2
    show (byeStep a 3 (byeStep a 2 (byeStep a 1 (mkByeView (byeProcess a t))))).t
      = byeProcess a t
    rw [byeStep_id_of_exhausted a 1 _ hmkN hmk0, byeStep_id_of_exhausted a 2 _ hmkN hmk0,
      byeStep_id_of_exhausted a 3 _ hmkN hmk0]
    rfl

theorem byeProcess_rel (a : Bool) (t : Team) :
    List.Forall₂ relB t.weeks (byeProcess a t).weeks :=
  (ByeInv_process a t).rel

theorem byeProcess_name (a : Bool) (t : Team) :
    (byeProcess a t).name = t.name := (ByeInv_process a t).nameEq

theorem byeProcess_conf (a : Bool) (t : Team) :
    (byeProcess a t).conference = t.conference := (ByeInv_process a t).confEq

theorem byeProcess_oocN (a : Bool) (t : Team) :
    (byeProcess a t).oocNeeded = t.oocNeeded := (ByeInv_process a t).oocEq

theorem byeProcess_byes_le (a : Bool) (t : Team) :
    countByes (byeProcess a t).weeks ≤ max 3 (countByes t.weeks) := by
  have b1 := byeStep_byes_bound a 1 (mkByeView t)
  have b2 := byeStep_byes_bound a 2 (byeStep a 1 (mkByeView t))
  have b3 := byeStep_byes_bound a 3 (byeStep a 2 (byeStep a 1 (mkByeView t)))
  have hmk : (mkByeView t).byes.length = countByes t.weeks := countB_byes t.weeks
  have hfin := (ByeInv_process a t).byesLen
  show countByes (byeStep a 3 (byeStep a 2 (byeStep a 1 (mkByeView t)))).t.weeks
    ≤ max 3 (countByes t.weeks)
  omega

theorem assignByes_idem (l : List Team) (a : Bool) :
    assignByes (assignByes l a) a = assignByes l a := by
  rw [assignByes_eq_map, assignByes_eq_map, List.map_map]
  apply List.map_congr_left
  intro t _
  exact byeProcess_idem a t

/-! ## Bridging lemmas to the team-level output -/

theorem tryGen_eq (l : List Team) (a : Bool) :
    tryGenerateSchedule l a =
      if 0 < sumRemaining (genStates l) ∧
          (sumRemaining (genStates l) : Int) - (sumRemaining (finalState l a) : Int)
            = 0 then
        { ok := false
          reason := some noPairReason
          teams := none
          unscheduled := none
          scheduledOOC := none
          neededOOC := none }
      else
        { ok := true
          reason := none
          teams := some ((finalState l a).map (·.ref))
          unscheduled := some (sumRemaining (finalState l a))
          scheduledOOC := some ((sumRemaining (genStates l) : Int) -
            (sumRemaining (finalState l a) : Int))
          neededOOC := some (sumRemaining (genStates l)) } := rfl

theorem stGet_get? {st : List TeamState} {i : Nat} (h : i < st.length) :
    st.get? i = some (stGet st i) := by
  simp [stGet, List.getD, List.get?_eq_getElem?, List.getElem?_eq_getElem h]

theorem forall₂_comp {R1 : α → β → Prop} {R2 : β → γ → Prop} {R3 : α → γ → Prop}
    (hcomp : ∀ a b c, R1 a b → R2 b c → R3 a c) :
    ∀ {l1 : List α} {l2 : List β} {l3 : List γ},
      List.Forall₂ R1 l1 l2 → List.Forall₂ R2 l2 l3 → List.Forall₂ R3 l1 l3 := by
  intro l1 l2 l3 h12 h23
  induction h12 generalizing l3 with
  | nil => cases h23; exact .nil
  | cons hab hrest ih =>
    cases h23 with
    | cons hbc hrest2 => exact .cons (hcomp _ _ _ hab hbc) (ih hrest2)

theorem slotRel_relB_trans {a b c : WeekSlot} (h1 : slotRel a b) (h2 : relB b c) :
    slotTrans a c := by
  rcases h1 with rfl | ⟨hopen, hooc⟩
  · rcases h2 with rfl | ⟨hbe, hbc⟩
    · exact Or.inl rfl
    · exact Or.inr (Or.inl ⟨hbe, Or.inr hbc⟩)
  · rcases h2 with rfl | ⟨hbe, hbc⟩
    · cases a with
      | empty => exact Or.inr (Or.inl ⟨rfl, Or.inl hooc⟩)
      | bye => exact Or.inr (Or.inr ⟨rfl, hooc⟩)
      | confHome => simp [isOpen] at hopen
      | confAway => simp [isOpen] at hopen
      | lockedOOC o aw => simp [isOpen] at hopen
      | oocGame o aw => simp [isOpen] at hopen
    · rw [hbe] at hooc; simp [isOoc] at hooc

theorem matcher_forall₂ (l : List Team) (a : Bool) :
    List.Forall₂ (fun t u => u.name = t.name ∧ u.conference = t.conference ∧
      u.oocNeeded = t.oocNeeded ∧ List.Forall₂ slotRel t.weeks u.weeks)
      l ((finalState l a).map (·.ref)) := by
  have inv := finalState_inv l a
  have hlen : l.length = ((finalState l a).map (·.ref)).length := by
    rw [List.length_map, inv.len]
    unfold genStates
    rw [List.length_map]
  apply forall₂_of_get? _ _ hlen
  intro i t u hti hui
  have hilt : i < (finalState l a).length := by
    rw [List.length_map] at hlen
    rw [← hlen]
    exact lt_of_get?_eq_some hti
  have hui' : ((finalState l a).get? i).map (·.ref) = some u := by
    rw [← List.get?_map]; exact hui
  rw [stGet_get? hilt] at hui'
  simp only [Option.map_some'] at hui'
  injection hui' with hui'
  have htD : l.getD i dummyTeam = t := by
    unfold List.getD
    rw [hti]; rfl
  have hinit : stGet (genStates l) i = computeTeamState t := by
    rw [stGet_genStates, htD]
  have hname : u.name = t.name := by
    rw [← hui']
    have := inv.nameEq i
    rw [hinit] at this
    exact this
  have hconf : u.conference = t.conference := by
    rw [← hui']
    have := inv.confEq i
    rw [hinit] at this
    exact this
  have hooc : u.oocNeeded = t.oocNeeded := by
    rw [← hui']
    have := inv.oocNEq i
    rw [hinit] at this
    exact this
  refine ⟨hname, hconf, hooc, ?_⟩
  have hwlen : u.weeks.length = t.weeks.length := by
    rw [← hui']
    have h2 := inv.wlen i
    unfold wksOf at h2
    rw [hinit] at h2
    exact h2
  apply forall₂_of_get? _ _ (by omega)
  intro j x y hjx hjy
  have hjy' : (wksOf (finalState l a) i).get? j = some y := by
    show (stGet (finalState l a) i).ref.weeks.get? j = some y
    rw [hui']; exact hjy
  have hjx' : (wksOf (genStates l) i).get? j = some x := by
    show (stGet (genStates l) i).ref.weeks.get? j = some x
    rw [hinit]; exact hjx
  exact inv.pres i j x y hjx' hjy'

theorem matcher_totalGames (l : List Team) (a : Bool)
    (hin : ∀ t ∈ l, countGames t.weeks ≤ 12) :
    List.Forall₂ (fun t u => countGames t.weeks ≤ countGames u.weeks ∧
      countGames u.weeks ≤ 12) l ((finalState l a).map (·.ref)) := by
  have inv := finalState_inv l a
  have hlen : l.length = ((finalState l a).map (·.ref)).length := by
    rw [List.length_map, inv.len]
    unfold genStates
    rw [List.length_map]
  apply forall₂_of_get? _ _ hlen
  intro i t u hti hui
  have hilt : i < (finalState l a).length := by
    rw [List.length_map] at hlen
    rw [← hlen]
    exact lt_of_get?_eq_some hti
  have hui' : ((finalState l a).get? i).map (·.ref) = some u := by
    rw [← List.get?_map]; exact hui
  rw [stGet_get? hilt] at hui'
  simp only [Option.map_some'] at hui'
  injection hui' with hui'
  have htD : l.getD i dummyTeam = t := by
    unfold List.getD
    rw [hti]; rfl
  have hinit : stGet (genStates l) i = computeTeamState t := by
    rw [stGet_genStates, htD]
  have htmem : t ∈ l := List.get?_mem hti
  have hinit_tot : (stGet (genStates l) i).totalGames = countGames t.weeks := by
    rw [hinit]; exact computeTeamState_total t
  have hle := inv.totalLe i
  have htot := inv.total i
  have hwk : wksOf (finalState l a) i = u.weeks := by
    show (stGet (finalState l a) i).ref.weeks = u.weeks
    rw [hui']
  constructor
  · -- monotone: countGames t.weeks ≤ countGames u.weeks via pres pointwise
    have hwlen : u.weeks.length = t.weeks.length := by
      rw [← hui']
      have h2 := inv.wlen i
      unfold wksOf at h2
      rw [hinit] at h2
      exact h2
    apply countP_mono_get? isGame t.weeks u.weeks (by omega)
    intro j x y hjx hjy hgx
    have hjy' : (wksOf (finalState l a) i).get? j = some y := by rw [hwk]; exact hjy
    have hjx' : (wksOf (genStates l) i).get? j = some x := by
      show (stGet (genStates l) i).ref.weeks.get? j = some x
      rw [hinit]; exact hjx
    exact slotRel_isGame (inv.pres i j x y hjx' hjy') hgx
  · -- upper bound
    have hin_t := hin t htmem
    rw [hinit_tot] at hle
    rw [hwk] at htot
    omega

theorem forall₂_countOoc :
    ∀ {A B : List Team},
      List.Forall₂ (fun t u => List.Forall₂ slotRel t.weeks u.weeks) A B →
      (B.map (fun t => countOoc t.weeks)).sum
        = (A.map (fun t => countOoc t.weeks)).sum + countNewOoc A B := by
  intro A B h
  induction h with
  | nil => rfl
  | cons hab hrest ih =>
    obtain ⟨hlen, hpt⟩ := forall₂_get?_of hab
    have h0 := countOoc_eq_add_countNewW _ _ hlen hpt
    unfold countNewOoc at ih ⊢
    simp only [List.zip_cons_cons, List.map_cons, List.sum_cons]
    omega

theorem scheduled_eq_countNew (l : List Team) (a : Bool) :
    (sumRemaining (genStates l) : Int) - (sumRemaining (finalState l a) : Int)
      = countNewOoc l ((finalState l a).map (·.ref)) := by
  have hsum := (finalState_inv l a).sumEq
  have hcount := forall₂_countOoc
    ((matcher_forall₂ l a).imp (fun _ _ h => h.2.2.2))
  have hG1 : countOocAll (finalState l a)
      = (((finalState l a).map (·.ref)).map (fun t => countOoc t.weeks)).sum := by
    rw [List.map_map]; rfl
  have hG0 : countOocAll (genStates l) = (l.map (fun t => countOoc t.weeks)).sum := by
    unfold countOocAll genStates
    rw [List.map_map]; rfl
  omega

/-! ## Order facts about the key comparison -/

theorem charsLt_asymm : ∀ (xs ys : List Char),
    charsLt xs ys = true → charsLt ys xs = false := by
  intro xs
  induction xs with
  | nil =>
    intro ys h
    cases ys with
    | nil => simp [charsLt] at h
    | cons d ds => simp [charsLt]
  | cons c cs ih =>
    intro ys h
    cases ys with
    | nil => simp [charsLt] at h
    | cons d ds =>
      unfold charsLt at h ⊢
      by_cases h1 : c.val.toNat < d.val.toNat
      · rw [if_neg (show ¬(d.val.toNat < c.val.toNat) by omega), if_pos h1]
      · by_cases h2 : d.val.toNat < c.val.toNat
        · rw [if_neg h1, if_pos h2] at h
          cases h
        · rw [if_neg h1, if_neg h2] at h
          rw [if_neg h2, if_neg h1]
          exact ih ds h

theorem charsLt_total : ∀ (xs ys : List Char),
    charsLt xs ys = false → charsLt ys xs = false → xs = ys := by
  intro xs
  induction xs with
  | nil =>
    intro ys h1 _
    cases ys with
    | nil => rfl
    | cons d ds => simp [charsLt] at h1
  | cons c cs ih =>
    intro ys h1 h2
    cases ys with
    | nil => simp [charsLt] at h2
    | cons d ds =>
      unfold charsLt at h1 h2
      split_ifs at h1 h2 with h3 h4
      · have hcd : c = d := Char.eq_of_val_eq (UInt32.toNat.inj (by omega))
        rw [hcd, ih ds h1 h2]

theorem strLt_total {x y : String} (hne : x ≠ y)
    (h1 : strLt x y = false) : strLt y x = true := by
  by_contra hcon
  have h2 : strLt y x = false := by
    cases hq : strLt y x
    · rfl
    · exact absurd hq hcon
  apply hne
  have hd : x.data = y.data := charsLt_total _ _ h1 h2
  cases x with
  | mk xd =>
    cases y with
    | mk yd =>
      simp only at hd
      rw [hd]

theorem strLt_asymm {x y : String} (h : strLt x y = true) : strLt y x = false :=
  charsLt_asymm _ _ h

/-! ## Concrete inputs used by witnesses and counterexamples -/

/-- Team A of the two-team examples: conference X, one OOC game needed,
every week a pre-existing bye. -/
def cexByeTeam : Team :=
  { name := "a", conference := "X", oocNeeded := 1, weeks := List.replicate 14 .bye }

/-- Team B of the two-team examples: conference Y, one OOC game needed,
every week open. -/
def cexEmptyTeam : Team :=
  { name := "b", conference := "Y", oocNeeded := 1, weeks := List.replicate 14 .empty }

/-- A single team demanding one OOC game: the matcher can never pair it,
so `tryGenerateSchedule` fails on `[cexSoloTeam]`. -/
def cexSoloTeam : Team :=
  { name := "c", conference := "X", oocNeeded := 1, weeks := List.replicate 14 .empty }

/-- Team state with normalized key `x` and name `A` (all counters zero). -/
def cexStateA : TeamState :=
  { ref := { name := "A", conference := "X", oocNeeded := 0, weeks := [] }
    name := "A", key := "x", conference := "X"
    totalGames := 0, homeGames := 0, awayGames := 0
    playedOpp := [], availableWeeks := [], oocRemaining := 0 }

/-- Team state with the same key `x` but name `B`. -/
def cexStateB : TeamState :=
  { ref := { name := "B", conference := "X", oocNeeded := 0, weeks := [] }
    name := "B", key := "x", conference := "X"
    totalGames := 0, homeGames := 0, awayGames := 0
    playedOpp := [], availableWeeks := [], oocRemaining := 0 }

/-- Team state with key `x` and name `A`, for the distinct-key witness. -/
def cexStateC : TeamState :=
  { ref := { name := "A", conference := "X", oocNeeded := 0, weeks := [] }
    name := "A", key := "x", conference := "X"
    totalGames := 0, homeGames := 0, awayGames := 0
    playedOpp := [], availableWeeks := [], oocRemaining := 0 }

/-- Team state with key `y` and name `B`, for the distinct-key witness. -/
def cexStateD : TeamState :=
  { ref := { name := "B", conference := "Y", oocNeeded := 0, weeks := [] }
    name := "B", key := "y", conference := "Y"
    totalGames := 0, homeGames := 0, awayGames := 0
    playedOpp := [], availableWeeks := [], oocRemaining := 0 }

/-! ## Claim theorems -/

/-- C3: `tryGenerateSchedule` returns failure (ok=false, with the fixed
reason string) if and only if the pre-pass demand (the sum of
`oocRemaining` over the initial state) is strictly positive and the
pass scheduled zero games (the demand did not drop); in every other
case it returns success. -/
theorem claim_C3 (l : List Team) (f : Bool) :
    ((tryGenerateSchedule l f).ok = false ↔
      0 < sumRemaining (genStates l) ∧
        (sumRemaining (genStates l) : Int) - (sumRemaining (finalState l f) : Int)
          = 0) ∧
    (tryGenerateSchedule l f).reason
      = (if (tryGenerateSchedule l f).ok then none else some noPairReason) := by
  by_cases h : 0 < sumRemaining (genStates l) ∧
      (sumRemaining (genStates l) : Int) - (sumRemaining (finalState l f) : Int) = 0
  · rw [tryGen_eq, if_pos h]
    exact ⟨⟨fun _ => h, fun _ => rfl⟩, rfl⟩
  · rw [tryGen_eq, if_neg h]
    exact ⟨⟨fun hf => Bool.noConfusion (show true = false from hf),
      fun hc => absurd hc h⟩, rfl⟩

/-- C7: the generation pipeline is a pure deterministic function of its
input: running `tryGenerateSchedule` and then `assignByes` (packaged in
`generate`) twice on identical input yields identical results, both the
result summary and every team's week slots. -/
theorem claim_C7 (l1 l2 : List Team) (f1 f2 : Bool)
    (hl : l1 = l2) (hf : f1 = f2) :
    tryGenerateSchedule l1 f1 = tryGenerateSchedule l2 f2 ∧
      generate l1 f1 = generate l2 f2 := by
  subst hl
  subst hf
  exact ⟨rfl, rfl⟩

/-- C7 witness: the determinism theorem applied at a concrete input. -/
theorem claim_C7_witness :
    tryGenerateSchedule [cexByeTeam, cexEmptyTeam] true
        = tryGenerateSchedule [cexByeTeam, cexEmptyTeam] true ∧
      generate [cexByeTeam, cexEmptyTeam] true
        = generate [cexByeTeam, cexEmptyTeam] true :=
  claim_C7 [cexByeTeam, cexEmptyTeam] [cexByeTeam, cexEmptyTeam] true true rfl rfl

/-- C8: `assignByes` converts only `empty` slots to `bye` (every other
slot is unchanged), never raises a team's bye count above 3 (beyond a
pre-existing excess), and running it a second time on its own output
changes nothing. -/
theorem claim_C8 (l : List Team) (f : Bool) :
    List.Forall₂ (fun t u => List.Forall₂ relB t.weeks u.weeks ∧
      countByes u.weeks ≤ max 3 (countByes t.weeks)) l (assignByes l f) ∧
    assignByes (assignByes l f) f = assignByes l f := by
  constructor
  · rw [assignByes_eq_map]
    induction l with
    | nil => exact .nil
    | cons x xs ih => exact .cons ⟨byeProcess_rel f x, byeProcess_byes_le f x⟩ ih
  · exact assignByes_idem l f

/-- C9 counterexample: on a failing run the result object carries only
`ok` and `reason`; the integer fields `unscheduled`, `scheduledOOC` and
`neededOOC` are absent (`none`), contradicting the claim that they are
present on the failure result. -/
theorem claim_C9_counterexample :
    (tryGenerateSchedule [cexSoloTeam] false).ok = false ∧
    (tryGenerateSchedule [cexSoloTeam] false).unscheduled = none ∧
    (tryGenerateSchedule [cexSoloTeam] false).scheduledOOC = none ∧
    (tryGenerateSchedule [cexSoloTeam] false).neededOOC = none :=
  ⟨by decide, by decide, by decide, by decide⟩

/-- C9 (amended): every result of `tryGenerateSchedule` carries `ok`;
the integer fields `unscheduled`, `scheduledOOC`, `neededOOC` and the
`teams` field are present exactly on the success result, and `reason`
is present (with the fixed string) exactly on the failure result. -/
theorem claim_C9_amended (l : List Team) (f : Bool) :
    (tryGenerateSchedule l f).unscheduled.isSome = (tryGenerateSchedule l f).ok ∧
    (tryGenerateSchedule l f).scheduledOOC.isSome = (tryGenerateSchedule l f).ok ∧
    (tryGenerateSchedule l f).neededOOC.isSome = (tryGenerateSchedule l f).ok ∧
    (tryGenerateSchedule l f).teams.isSome = (tryGenerateSchedule l f).ok ∧
    (tryGenerateSchedule l f).reason
      = (if (tryGenerateSchedule l f).ok then none else some noPairReason) := by
  by_cases h : 0 < sumRemaining (genStates l) ∧
      (sumRemaining (genStates l) : Int) - (sumRemaining (finalState l f) : Int) = 0
  · rw [tryGen_eq, if_pos h]
    exact ⟨rfl, rfl, rfl, rfl, rfl⟩
  · rw [tryGen_eq, if_neg h]
    exact ⟨rfl, rfl, rfl, rfl, rfl⟩

/-- C10: `scheduledOOC` is present exactly on success and equals twice
the number of games the matcher pass placed (one `placeGameAtWeek` call
per game, counted by the ghost-instrumented run `gamesPlaced`); in
particular it is an even non-negative integer. -/
theorem claim_C10 (l : List Team) (f : Bool) :
    (tryGenerateSchedule l f).scheduledOOC
      = (if (tryGenerateSchedule l f).ok
          then some ((2 * gamesPlaced l f : Nat) : Int) else none) ∧
    Even ((2 * gamesPlaced l f : Nat) : Int) ∧
    0 ≤ ((2 * gamesPlaced l f : Nat) : Int) := by
  refine ⟨?_, ⟨(gamesPlaced l f : Int), by push_cast; ring⟩, by positivity⟩
  by_cases h : 0 < sumRemaining (genStates l) ∧
      (sumRemaining (genStates l) : Int) - (sumRemaining (finalState l f) : Int) = 0
  · rw [tryGen_eq, if_pos h]
    rfl
  · rw [tryGen_eq, if_neg h]
    have hsum := sum_finalState_games l f
    have heq : (sumRemaining (genStates l) : Int) -
        (sumRemaining (finalState l f) : Int)
        = ((2 * gamesPlaced l f : Nat) : Int) := by omega
    show some ((sumRemaining (genStates l) : Int) -
      (sumRemaining (finalState l f) : Int)) = _
    rw [heq]
    rfl

/-- C1 counterexample: `availableWeeks` includes `bye` weeks, so a
pre-existing `bye` slot is overwritten by an `oocGame`: team `a` enters
with a bye in week 0 and leaves the run (`tryGenerateSchedule` then
`assignByes`) with a scheduled `oocGame` there. -/
theorem claim_C1_counterexample :
    cexByeTeam.weeks.get? 0 = some WeekSlot.bye ∧
    ((generate [cexByeTeam, cexEmptyTeam] false).get? 0).map
        (fun t => t.weeks.get? 0)
      = some (some (WeekSlot.oocGame "b" false)) :=
  ⟨by decide, by decide⟩

/-- C1 (amended): during a run of the scheduler (`tryGenerateSchedule`
followed by `assignByes`), `confHome`, `confAway` and `lockedOOC` slots
are byte-identical in the output; an `empty` slot transitions only to
`oocGame` or `bye`; and a pre-existing `bye` slot is either unchanged
or replaced by an `oocGame` (because `availableWeeks` includes bye
weeks).  Team identities are also unchanged. -/
theorem claim_C1_amended (l : List Team) (f : Bool) :
    List.Forall₂ (fun t u => u.name = t.name ∧ u.conference = t.conference ∧
      u.oocNeeded = t.oocNeeded ∧ List.Forall₂ slotTrans t.weeks u.weeks)
      l (generate l f) := by
  unfold generate
  by_cases h : 0 < sumRemaining (genStates l) ∧
      (sumRemaining (genStates l) : Int) - (sumRemaining (finalState l f) : Int) = 0
  · rw [tryGen_eq, if_pos h]
    show List.Forall₂ _ l l
    refine List.forall₂_same.mpr ?_
    intro t _
    exact ⟨rfl, rfl, rfl, List.forall₂_same.mpr (fun x _ => Or.inl rfl)⟩
  · rw [tryGen_eq, if_neg h]
    show List.Forall₂ _ l (assignByes ((finalState l f).map (·.ref)) f)
    have h1 := matcher_forall₂ l f
    have h2 : List.Forall₂ (fun t u => u = byeProcess f t)
        ((finalState l f).map (·.ref))
        (assignByes ((finalState l f).map (·.ref)) f) := by
      rw [assignByes_eq_map]
      induction ((finalState l f).map (·.ref)) with
      | nil => exact .nil
      | cons x xs ih => exact .cons rfl ih
    refine forall₂_comp ?_ h1 h2
    intro t u v hr1 hr2
    rw [hr2]
    refine ⟨?_, ?_, ?_, ?_⟩
    · rw [byeProcess_name, hr1.1]
    · rw [byeProcess_conf, hr1.2.1]
    · rw [byeProcess_oocN, hr1.2.2.1]
    · exact @forall₂_comp WeekSlot WeekSlot WeekSlot slotRel relB slotTrans
        (fun _ _ _ h1 h2 => slotRel_relB_trans h1 h2) _ _ _ hr1.2.2.2
        (byeProcess_rel f u)

/-- C2: a game is placed only between teams whose `totalGames` are
strictly below 12 (`canScheduleBetween` guards every placement), and a
placement increments both participants' `totalGames` by exactly one;
consequently, on inputs whose teams start within the 12-game budget
(the upstream validator's contract), every team of every matcher
output has at least its input game count and at most 12 games. -/
theorem claim_C2 :
    (∀ (st : List TeamState) (ia ib w : Nat), ia ≠ ib →
      ia < st.length → ib < st.length →
      canScheduleBetween (stGet st ia) (stGet st ib) = true →
      (stGet st ia).totalGames < 12 ∧ (stGet st ib).totalGames < 12 ∧
      (stGet (placeGameAtWeek st ia ib w) ia).totalGames
        = (stGet st ia).totalGames + 1 ∧
      (stGet (placeGameAtWeek st ia ib w) ib).totalGames
        = (stGet st ib).totalGames + 1) ∧
    (∀ (l : List Team) (f : Bool) (out : List Team),
      (∀ t ∈ l, countGames t.weeks ≤ 12) →
      (tryGenerateSchedule l f).teams = some out →
      List.Forall₂ (fun t u => countGames t.weeks ≤ countGames u.weeks ∧
        countGames u.weeks ≤ 12) l out) := by
  constructor
  · intro st ia ib w hne ha hb hcan
    obtain ⟨_, _, _, _, hAt, hBt⟩ := canScheduleBetween_spec hcan
    refine ⟨hAt, hBt, ?_, ?_⟩
    · rw [stGet_place_fst hne ha, placeSide_total]
    · rw [stGet_place_snd hb, placeSide_total]
  · intro l f out hin hout
    by_cases h : 0 < sumRemaining (genStates l) ∧
        (sumRemaining (genStates l) : Int) - (sumRemaining (finalState l f) : Int) = 0
    · rw [tryGen_eq, if_pos h] at hout
      exact Option.noConfusion (show (none : Option (List Team)) = some out from hout)
    · rw [tryGen_eq, if_neg h] at hout
      have hout' : (finalState l f).map (·.ref) = out := by
        injection (show some ((finalState l f).map (·.ref)) = some out from hout)
      rw [← hout']
      exact matcher_totalGames l f hin

/-- C2 witness: the output-bound part of the theorem applied at a
concrete two-team input. -/
theorem claim_C2_witness :
    List.Forall₂ (fun t u => countGames t.weeks ≤ countGames u.weeks ∧
      countGames u.weeks ≤ 12) [cexByeTeam, cexEmptyTeam]
      ((tryGenerateSchedule [cexByeTeam, cexEmptyTeam] false).teams.getD []) :=
  claim_C2.2 [cexByeTeam, cexEmptyTeam] false
    ((tryGenerateSchedule [cexByeTeam, cexEmptyTeam] false).teams.getD [])
    (by decide) (by decide)

/-- C4 counterexample: on the two-team example exactly one game is
placed; `scheduledOOC` is 2 and the number of new `oocGame` slots is
also 2, so `scheduledOOC` equals the full count of new slots, not half
of it (2 ≠ 2 / 2). -/
theorem claim_C4_counterexample :
    (tryGenerateSchedule [cexByeTeam, cexEmptyTeam] false).scheduledOOC
        = some 2 ∧
    countNewOoc [cexByeTeam, cexEmptyTeam]
        ((tryGenerateSchedule [cexByeTeam, cexEmptyTeam] false).teams.getD [])
      = 2 ∧
    ¬((2 : Int) = 2 / 2) :=
  ⟨by decide, by decide, by decide⟩

/-- C4 (amended): on every successful run the summary satisfies
`neededOOC − unscheduled = scheduledOOC`, and `scheduledOOC` equals the
full count of new `oocGame` slots written during the pass (each game
writes two slots and decrements the summed demand by two). -/
theorem claim_C4_amended (l : List Team) (f : Bool) (n u : Nat) (s : Int)
    (out : List Team)
    (hn : (tryGenerateSchedule l f).neededOOC = some n)
    (hu : (tryGenerateSchedule l f).unscheduled = some u)
    (hs : (tryGenerateSchedule l f).scheduledOOC = some s)
    (ho : (tryGenerateSchedule l f).teams = some out) :
    (n : Int) - (u : Int) = s ∧ s = countNewOoc l out := by
  by_cases h : 0 < sumRemaining (genStates l) ∧
      (sumRemaining (genStates l) : Int) - (sumRemaining (finalState l f) : Int) = 0
  · rw [tryGen_eq, if_pos h] at hn
    exact Option.noConfusion (show (none : Option Nat) = some n from hn)
  · rw [tryGen_eq, if_neg h] at hn hu hs ho
    have hn' : sumRemaining (genStates l) = n := by
      injection (show some (sumRemaining (genStates l)) = some n from hn)
    have hu' : sumRemaining (finalState l f) = u := by
      injection (show some (sumRemaining (finalState l f)) = some u from hu)
    have hs' : (sumRemaining (genStates l) : Int) -
        (sumRemaining (finalState l f) : Int) = s := by
      injection (show some ((sumRemaining (genStates l) : Int) -
        (sumRemaining (finalState l f) : Int)) = some s from hs)
    have ho' : (finalState l f).map (·.ref) = out := by
      injection (show some ((finalState l f).map (·.ref)) = some out from ho)
    constructor
    · rw [← hn', ← hu', ← hs']
    · rw [← hs', ← ho']
      exact scheduled_eq_countNew l f

/-- C4 witness: the amended accounting identity at the two-team
example (`neededOOC = 2`, `unscheduled = 0`, `scheduledOOC = 2`, two
new `oocGame` slots). -/
theorem claim_C4_witness :
    ((2 : Nat) : Int) - ((0 : Nat) : Int) = (2 : Int) ∧
      (2 : Int) = countNewOoc [cexByeTeam, cexEmptyTeam]
        ((tryGenerateSchedule [cexByeTeam, cexEmptyTeam] false).teams.getD []) :=
  claim_C4_amended [cexByeTeam, cexEmptyTeam] false 2 0 2
    ((tryGenerateSchedule [cexByeTeam, cexEmptyTeam] false).teams.getD [])
    (by decide) (by decide) (by decide) (by decide)

/-- C5: every `oocGame` slot of the matcher output that was not already
present in the input has a mirror: some other team of the output, named
as the slot's opponent, holds at the same week an `oocGame` slot back
to this team with the opposite away flag. -/
theorem claim_C5 (l : List Team) (f : Bool) (out : List Team) (i w : Nat)
    (op : String) (aw : Bool) (ti : Team)
    (hout : (tryGenerateSchedule l f).teams = some out)
    (hti : out.get? i = some ti)
    (hslot : ti.weeks.get? w = some (.oocGame op aw))
    (hnew : ¬((l.get? i).bind (fun t => t.weeks.get? w)
      = some (.oocGame op aw))) :
    ∃ j tj, j ≠ i ∧ out.get? j = some tj ∧ tj.name = op ∧
      tj.weeks.get? w = some (.oocGame ti.name (!aw)) := by
  have inv := finalState_inv l f
  by_cases h : 0 < sumRemaining (genStates l) ∧
      (sumRemaining (genStates l) : Int) - (sumRemaining (finalState l f) : Int) = 0
  · rw [tryGen_eq, if_pos h] at hout
    exact Option.noConfusion (show (none : Option (List Team)) = some out from hout)
  · rw [tryGen_eq, if_neg h] at hout
    have hout' : (finalState l f).map (·.ref) = out := by
      injection (show some ((finalState l f).map (·.ref)) = some out from hout)
    subst hout'
    have hilt : i < (finalState l f).length := by
      have h2 := lt_of_get?_eq_some hti
      rw [List.length_map] at h2
      exact h2
    have hti' : ti = (stGet (finalState l f) i).ref := by
      have h2 : ((finalState l f).get? i).map (·.ref) = some ti := by
        rw [← List.get?_map]; exact hti
      rw [stGet_get? hilt] at h2
      simp only [Option.map_some'] at h2
      injection h2 with h2
      exact h2.symm
    have hslot' : (wksOf (finalState l f) i).get? w = some (.oocGame op aw) := by
      show (stGet (finalState l f) i).ref.weeks.get? w = _
      rw [← hti']
      exact hslot
    rcases inv.symm i w op aw hilt hslot' with hinit | ⟨j, hj, hjne, hjname, hjslot⟩
    · exfalso
      apply hnew
      have hlen : (genStates l).length = l.length := by
        unfold genStates; rw [List.length_map]
      have hillt : i < l.length := by
        rw [← hlen, ← inv.len]; exact hilt
      obtain ⟨t0, ht0⟩ : ∃ t0, l.get? i = some t0 := by
        cases hq : l.get? i with
        | none => exact absurd (List.get?_eq_none.mp hq) (by omega)
        | some t0 => exact ⟨t0, rfl⟩
      have hD : l.getD i dummyTeam = t0 := by
        unfold List.getD; rw [ht0]; rfl
      have hwk0 : wksOf (genStates l) i = t0.weeks := by
        show (stGet (genStates l) i).ref.weeks = _
        rw [stGet_genStates, hD]
        rfl
      rw [hwk0] at hinit
      rw [ht0]
      exact hinit
    · refine ⟨j, (stGet (finalState l f) j).ref, hjne, ?_, hjname, ?_⟩
      · rw [List.get?_map, stGet_get? hj]
        rfl
      · rw [hti']
        exact hjslot

/-- C5 witness: the symmetry theorem applied at the two-team example:
team `a` receives a new `oocGame` against `b` at week 0, and the mirror
slot at team `b` exists with the opposite away flag. -/
theorem claim_C5_witness :
    ∃ j tj, j ≠ 0 ∧
      ((tryGenerateSchedule [cexByeTeam, cexEmptyTeam] false).teams.getD []).get? j
        = some tj ∧
      tj.name = "b" ∧
      tj.weeks.get? 0 = some (.oocGame
        (((tryGenerateSchedule [cexByeTeam, cexEmptyTeam]
          false).teams.getD []).getD 0 dummyTeam).name (!false)) :=
  claim_C5 [cexByeTeam, cexEmptyTeam] false
    ((tryGenerateSchedule [cexByeTeam, cexEmptyTeam] false).teams.getD [])
    0 0 "b" false
    (((tryGenerateSchedule [cexByeTeam, cexEmptyTeam] false).teams.getD []).getD 0
      dummyTeam)
    (by decide) (by decide) (by decide) (by decide)

/-- C6 counterexample: for two distinct states with equal normalized
keys (and equal counters) the designated home team depends on argument
order: `pickHomeAway(a, b)` makes `b` home while `pickHomeAway(b, a)`
makes `a` home, refuting the order-independence clause. -/
theorem claim_C6_counterexample :
    (pickHomeAway cexStateA cexStateB).home = cexStateB ∧
    (pickHomeAway cexStateB cexStateA).home = cexStateA ∧
    cexStateA ≠ cexStateB :=
  ⟨by decide, by decide, by decide⟩

/-- C6 (amended): for states with distinct normalized keys (which is
what `canScheduleBetween` guarantees at every placement),
`pickHomeAway` designates as home the side with strictly fewer
`homeGames`, then on ties the side with strictly more `awayGames`, then
the side with the smaller key; and the designated home/away teams do
not depend on argument order. -/
theorem claim_C6_amended (a b : TeamState) (hk : a.key ≠ b.key) :
    ((a.homeGames < b.homeGames → pickHomeAway a b = ⟨a, b⟩) ∧
     (b.homeGames < a.homeGames → pickHomeAway a b = ⟨b, a⟩) ∧
     (a.homeGames = b.homeGames → b.awayGames < a.awayGames →
        pickHomeAway a b = ⟨a, b⟩) ∧
     (a.homeGames = b.homeGames → a.awayGames < b.awayGames →
        pickHomeAway a b = ⟨b, a⟩) ∧
     (a.homeGames = b.homeGames → a.awayGames = b.awayGames →
        strLt a.key b.key = true → pickHomeAway a b = ⟨a, b⟩) ∧
     (a.homeGames = b.homeGames → a.awayGames = b.awayGames →
        strLt b.key a.key = true → pickHomeAway a b = ⟨b, a⟩)) ∧
    (pickHomeAway b a).home = (pickHomeAway a b).home ∧
    (pickHomeAway b a).away = (pickHomeAway a b).away := by
  constructor
  · refine ⟨?_, ?_, ?_, ?_, ?_, ?_⟩
    · intro hlt
      unfold pickHomeAway
      rw [if_pos (show a.homeGames ≠ b.homeGames by omega), if_pos hlt]
    · intro hlt
      unfold pickHomeAway
      rw [if_pos (show a.homeGames ≠ b.homeGames by omega),
        if_neg (show ¬(a.homeGames < b.homeGames) by omega)]
    · intro he hlt
      unfold pickHomeAway
      rw [if_neg (show ¬(a.homeGames ≠ b.homeGames) by omega),
        if_pos (show a.awayGames ≠ b.awayGames by omega),
        if_pos (show a.awayGames > b.awayGames from hlt)]
    · intro he hlt
      unfold pickHomeAway
      rw [if_neg (show ¬(a.homeGames ≠ b.homeGames) by omega),
        if_pos (show a.awayGames ≠ b.awayGames by omega),
        if_neg (show ¬(a.awayGames > b.awayGames) by omega)]
    · intro h1 h2 hlt
      unfold pickHomeAway
      rw [if_neg (show ¬(a.homeGames ≠ b.homeGames) by omega),
        if_neg (show ¬(a.awayGames ≠ b.awayGames) by omega), if_pos hlt]
    · intro h1 h2 hlt
      have hfalse : strLt a.key b.key = false := strLt_asymm hlt
      unfold pickHomeAway
      rw [if_neg (show ¬(a.homeGames ≠ b.homeGames) by omega),
        if_neg (show ¬(a.awayGames ≠ b.awayGames) by omega),
        if_neg (show ¬(strLt a.key b.key = true) by rw [hfalse]; simp)]
  · by_cases h1 : a.homeGames = b.homeGames
    · by_cases h2 : a.awayGames = b.awayGames
      · by_cases h3 : strLt a.key b.key = true
        · have h3' : strLt b.key a.key = false := strLt_asymm h3
          unfold pickHomeAway
          rw [if_neg (show ¬(a.homeGames ≠ b.homeGames) by omega),
            if_neg (show ¬(b.homeGames ≠ a.homeGames) by omega),
            if_neg (show ¬(a.awayGames ≠ b.awayGames) by omega),
            if_neg (show ¬(b.awayGames ≠ a.awayGames) by omega),
            if_pos h3,
            if_neg (show ¬(strLt b.key a.key = true) by rw [h3']; simp)]
          exact ⟨rfl, rfl⟩
        · have h3f : strLt a.key b.key = false := by
            cases hq : strLt a.key b.key
            · rfl
            · exact absurd hq h3
          have h3' : strLt b.key a.key = true := strLt_total hk h3f
          unfold pickHomeAway
          rw [if_neg (show ¬(a.homeGames ≠ b.homeGames) by omega),
            if_neg (show ¬(b.homeGames ≠ a.homeGames) by omega),
            if_neg (show ¬(a.awayGames ≠ b.awayGames) by omega),
            if_neg (show ¬(b.awayGames ≠ a.awayGames) by omega),
            if_neg (show ¬(strLt a.key b.key = true) by rw [h3f]; simp),
            if_pos h3']
          exact ⟨rfl, rfl⟩
      · by_cases h3 : a.awayGames > b.awayGames
        · unfold pickHomeAway
          rw [if_neg (show ¬(a.homeGames ≠ b.homeGames) by omega),
            if_neg (show ¬(b.homeGames ≠ a.homeGames) by omega),
            if_pos (show a.awayGames ≠ b.awayGames by omega),
            if_pos (show b.awayGames ≠ a.awayGames by omega),
            if_pos h3,
            if_neg (show ¬(b.awayGames > a.awayGames) by omega)]
          exact ⟨rfl, rfl⟩
        · unfold pickHomeAway
          rw [if_neg (show ¬(a.homeGames ≠ b.homeGames) by omega),
            if_neg (show ¬(b.homeGames ≠ a.homeGames) by omega),
            if_pos (show a.awayGames ≠ b.awayGames by omega),
            if_pos (show b.awayGames ≠ a.awayGames by omega),
            if_neg h3,
            if_pos (show b.awayGames > a.awayGames by omega)]
          exact ⟨rfl, rfl⟩
    · by_cases h3 : a.homeGames < b.homeGames
      · unfold pickHomeAway
        rw [if_pos (show a.homeGames ≠ b.homeGames by omega),
          if_pos (show b.homeGames ≠ a.homeGames by omega),
          if_pos h3,
          if_neg (show ¬(b.homeGames < a.homeGames) by omega)]
        exact ⟨rfl, rfl⟩
      · unfold pickHomeAway
        rw [if_pos (show a.homeGames ≠ b.homeGames by omega),
          if_pos (show b.homeGames ≠ a.homeGames by omega),
          if_neg h3,
          if_pos (show b.homeGames < a.homeGames by omega)]
        exact ⟨rfl, rfl⟩

/-- C6 witness: the amended theorem's order-independence at two states
with distinct keys. -/
theorem claim_C6_witness :
    (pickHomeAway cexStateD cexStateC).home = (pickHomeAway cexStateC cexStateD).home ∧
    (pickHomeAway cexStateD cexStateC).away = (pickHomeAway cexStateC cexStateD).away :=
  (claim_C6_amended cexStateC cexStateD (by decide)).2
